import Mathlib

/-!
Verification development for the Sudoku solver in `task2.py`.

The grid is embedded as a list of rows of natural numbers (`Grid`), mirroring
the Python list-of-lists representation; reads and writes go through `gget`
and `gset`, which model Python indexing (out-of-range reads default, writes
out of range are modelled as no-ops but never occur on well-formed boards).
The backtracking solver is embedded with an explicit fuel argument; `82`
steps of fuel are always sufficient because each recursive call fills one of
the at most `81` empty cells (proved below).
-/

set_option maxHeartbeats 4000000

namespace Sudoku

/-- Read a cell of a two-dimensional list, with a default for out-of-range
indices (indices produced by the solver are always in range on well-formed
9×9 boards). -/
def gget (dflt : α) (g : List (List α)) (i j : Nat) : α :=
  (g.getD i []).getD j dflt

/-- Write a cell of a two-dimensional list, modelling the in-place update
`g[i][j] = v`. -/
def gset (g : List (List α)) (i j : Nat) (v : α) : List (List α) :=
  g.set i ((g.getD i []).set j v)

/-- A Sudoku board: nine rows of nine entries, `0` denoting an empty cell. -/
abbrev Grid := List (List Nat)

/-- `get2 g i j` is `self.puzzle[i][j]` in the source. -/
def get2 (g : Grid) (i j : Nat) : Nat := gget 0 g i j

/-- `set2 g i j v` is the in-place assignment `self.puzzle[i][j] = v`. -/
def set2 (g : Grid) (i j v : Nat) : Grid := gset g i j v

/-- The board is a 9×9 matrix. -/
def wfb (g : Grid) : Bool :=
  g.length == 9 && g.all fun row => row.length == 9

/-- All 81 cell coordinates in row-major order, the iteration order of
`for row in range(9) for col in range(9)` used throughout the source. -/
def allCells : List (Nat × Nat) :=
  (List.range 9).flatMap fun i => (List.range 9).map fun j => (i, j)

/-- `check_win` from the source: the grid counts as won iff no cell is `0`
(fullness only, no constraint re-validation). -/
def check_win (g : Grid) : Bool :=
  g.all fun row => row.all fun cell => cell != 0

/-- `find_empty_cell` from the source: first cell holding `0`, in row-major
order. -/
def find_empty_cell (g : Grid) : Option (Nat × Nat) :=
  allCells.find? fun p => get2 g p.1 p.2 == 0

/-- `is_valid` from the source: `num` may be placed at `(row, col)` iff it
does not already occur in that row, that column, or that 3×3 block. -/
def is_valid (g : Grid) (num row col : Nat) : Bool :=
  if num ∈ g.getD row [] then false
  else if num ∈ (List.range 9).map (fun i => get2 g i col) then false
  else if (List.range 3).any (fun i => (List.range 3).any fun j =>
      get2 g (3 * (row / 3) + i) (3 * (col / 3) + j) == num) then false
  else true

/-- The candidate loop `for num in range(1, 10)` of `backtracking_solve`:
try each value in order; a valid value is written, the recursive search
(`recurse`) is run on the updated grid, and on failure the cell is reset to
`0` before the next candidate. -/
def tryList (recurse : Grid → Bool × Grid) (row col : Nat) :
    List Nat → Grid → Bool × Grid
  | [], g => (false, g)
  | num :: rest, g =>
    if is_valid g num row col then
      if (recurse (set2 g row col num)).1 then (true, (recurse (set2 g row col num)).2)
      else tryList recurse row col rest (set2 (recurse (set2 g row col num)).2 row col 0)
    else tryList recurse row col rest g

/-- `backtracking_solve` from the source, with explicit fuel for the
recursion depth (each level fills one empty cell, so 82 units of fuel are
always enough; see `backtrack_complete`). Returns the success flag together
with the final state of the (in Python, in-place mutated) grid. -/
def backtrack : Nat → Grid → Bool × Grid
  | 0, g => (false, g)
  | fuel + 1, g =>
    match find_empty_cell g with
    | none => (true, g)
    | some rc => tryList (backtrack fuel) rc.1 rc.2 [1, 2, 3, 4, 5, 6, 7, 8, 9] g

/-- The solver as called by the program: backtracking with sufficient fuel. -/
def backtracking_solve (g : Grid) : Bool × Grid := backtrack 82 g

/-! ### Basic lemmas about list reads and writes -/

theorem getD_set_ne {α : Type _} (l : List α) (d : α) {i j : Nat} (h : i ≠ j) (v : α) :
    (l.set i v).getD j d = l.getD j d := by
  rw [List.getD_eq_getElem?_getD, List.getD_eq_getElem?_getD, List.getElem?_set_ne h]

theorem getD_set_self {α : Type _} (l : List α) (d : α) {i : Nat} (h : i < l.length) (v : α) :
    (l.set i v).getD i d = v := by
  rw [List.getD_eq_getElem?_getD, List.getElem?_set_self h]
  rfl

theorem set_own {α : Type _} (l : List α) (d : α) (i : Nat) : l.set i (l.getD i d) = l := by
  induction l generalizing i with
  | nil => rfl
  | cons a t ih =>
    cases i with
    | zero => rfl
    | succ n => simp only [List.set, List.getD_cons_succ]; rw [ih]

theorem set_of_le {α : Type _} (l : List α) {i : Nat} (h : l.length ≤ i) (v : α) :
    l.set i v = l := by
  induction l generalizing i with
  | nil => rfl
  | cons a t ih =>
    cases i with
    | zero => simp at h
    | succ n => simp only [List.set]; rw [ih (by simpa using h)]

theorem gget_gset_ne {α : Type _} (d : α) (g : List (List α)) {i j k l : Nat}
    (h : (i, j) ≠ (k, l)) (v : α) : gget d (gset g i j v) k l = gget d g k l := by
  unfold gget gset
  rcases Nat.lt_or_ge i g.length with hi | hi
  · rcases Decidable.em (i = k) with rfl | hne
    · have hjl : j ≠ l := by rintro rfl; exact h rfl
      rw [getD_set_self _ _ hi, getD_set_ne _ _ hjl]
    · rw [getD_set_ne _ _ hne]
  · rw [set_of_le _ hi]

theorem gget_gset_self {α : Type _} (d : α) (g : List (List α)) {i j : Nat}
    (hi : i < g.length) (hj : j < (g.getD i []).length) (v : α) :
    gget d (gset g i j v) i j = v := by
  unfold gget gset
  rw [getD_set_self _ _ hi, getD_set_self _ _ hj]

theorem gset_gset {α : Type _} (g : List (List α)) (i j : Nat) (a b : α) :
    gset (gset g i j a) i j b = gset g i j b := by
  unfold gset
  rcases Nat.lt_or_ge i g.length with hi | hi
  · rw [getD_set_self _ _ hi, List.set_set, List.set_set]
  · rw [set_of_le _ hi]

theorem gset_gget_self {α : Type _} (d : α) (g : List (List α)) (i j : Nat) :
    gset g i j (gget d g i j) = g := by
  unfold gget gset
  rw [set_own, set_own]

theorem length_gset {α : Type _} (g : List (List α)) (i j : Nat) (v : α) :
    (gset g i j v).length = g.length := List.length_set ..

theorem mem_gset {α : Type _} {g : List (List α)} {i j : Nat} {v : α} {row : List α}
    (h : row ∈ gset g i j v) : row ∈ g ∨ ∃ r ∈ g, row = r.set j v := by
  rcases Nat.lt_or_ge i g.length with hi | hi
  · rcases List.mem_or_eq_of_mem_set h with h' | rfl
    · exact .inl h'
    · refine .inr ⟨g.getD i [], ?_, rfl⟩
      rw [List.getD_eq_getElem?_getD, List.getElem?_eq_getElem hi]
      exact List.getElem_mem hi
  · left
    unfold gset at h
    rwa [set_of_le _ hi] at h

/-! ### Cells and the empty-cell search -/

theorem mem_allCells {p : Nat × Nat} : p ∈ allCells ↔ p.1 < 9 ∧ p.2 < 9 := by
  unfold allCells
  simp only [List.mem_flatMap, List.mem_map, List.mem_range]
  constructor
  · rintro ⟨i, hi, j, hj, rfl⟩; exact ⟨hi, hj⟩
  · rintro ⟨h1, h2⟩; exact ⟨p.1, h1, p.2, h2, rfl⟩

theorem allCells_nodup : allCells.Nodup := by decide

theorem find_empty_some {g : Grid} {p : Nat × Nat} (h : find_empty_cell g = some p) :
    p.1 < 9 ∧ p.2 < 9 ∧ get2 g p.1 p.2 = 0 := by
  have hm := List.mem_of_find?_eq_some h
  have hp := List.find?_some h
  rw [mem_allCells] at hm
  exact ⟨hm.1, hm.2, by simpa using hp⟩

theorem find_empty_none {g : Grid} :
    find_empty_cell g = none ↔ ∀ p ∈ allCells, get2 g p.1 p.2 ≠ 0 := by
  unfold find_empty_cell
  rw [List.find?_eq_none]
  constructor
  · intro h p hp; simpa using h p hp
  · intro h p hp; simpa using h p hp

/-! ### Constraint predicates -/

/-- Two cells constrain each other iff they share a row, a column, or a
3×3 block. -/
def sameUnit (p q : Nat × Nat) : Prop :=
  p.1 = q.1 ∨ p.2 = q.2 ∨ (p.1 / 3 = q.1 / 3 ∧ p.2 / 3 = q.2 / 3)

instance (p q : Nat × Nat) : Decidable (sameUnit p q) := by
  unfold sameUnit; exact inferInstance

theorem sameUnit_symm {p q : Nat × Nat} (h : sameUnit p q) : sameUnit q p := by
  rcases h with h | h | h
  · exact .inl h.symm
  · exact .inr (.inl h.symm)
  · exact .inr (.inr ⟨h.1.symm, h.2.symm⟩)

/-- Cells `p` and `q` do not clash: if they are distinct cells of a common
unit and `p` is filled, their values differ. -/
def cellsOK (g : Grid) (p q : Nat × Nat) : Prop :=
  p ≠ q → sameUnit p q → get2 g p.1 p.2 ≠ 0 → get2 g p.1 p.2 ≠ get2 g q.1 q.2

instance (g : Grid) (p q : Nat × Nat) : Decidable (cellsOK g p q) := by
  unfold cellsOK; exact inferInstance

/-- No two distinct cells of a row, column, or block hold the same non-zero
value. -/
def gridOKb (g : Grid) : Bool :=
  allCells.all fun p => allCells.all fun q => decide (cellsOK g p q)

theorem gridOKb_iff {g : Grid} :
    gridOKb g = true ↔ ∀ p ∈ allCells, ∀ q ∈ allCells, cellsOK g p q := by
  simp [gridOKb, List.all_eq_true]

/-- Every entry of the board is at most 9 (the data-model range). -/
def boundedB (g : Grid) : Bool :=
  g.all fun row => row.all fun v => decide (v ≤ 9)

/-! ### Well-formedness lemmas -/

theorem wfb_iff {g : Grid} : wfb g = true ↔ g.length = 9 ∧ ∀ row ∈ g, row.length = 9 := by
  simp [wfb, List.all_eq_true]

theorem row_mem {g : Grid} (hw : wfb g = true) {r : Nat} (hr : r < 9) : g.getD r [] ∈ g := by
  have hl := (wfb_iff.1 hw).1
  rw [List.getD_eq_getElem?_getD, List.getElem?_eq_getElem (by omega)]
  exact List.getElem_mem (by omega)

theorem row_length {g : Grid} (hw : wfb g = true) {r : Nat} (hr : r < 9) :
    (g.getD r []).length = 9 :=
  (wfb_iff.1 hw).2 _ (row_mem hw hr)

theorem get2_mem_row {g : Grid} (hw : wfb g = true) {r c : Nat} (hr : r < 9) (hc : c < 9) :
    get2 g r c ∈ g.getD r [] := by
  have hl : c < (g.getD r []).length := by rw [row_length hw hr]; omega
  show (g.getD r []).getD c 0 ∈ g.getD r []
  generalize g.getD r [] = row at hl ⊢
  rw [List.getD_eq_getElem?_getD, List.getElem?_eq_getElem hl]
  exact List.getElem_mem hl

theorem mem_row_iff {g : Grid} (hw : wfb g = true) {r : Nat} (hr : r < 9) {v : Nat} :
    v ∈ g.getD r [] ↔ ∃ c, c < 9 ∧ get2 g r c = v := by
  constructor
  · intro hv
    rcases List.mem_iff_getElem.1 hv with ⟨c, hc, hval⟩
    refine ⟨c, by rw [row_length hw hr] at hc; omega, ?_⟩
    show (g.getD r []).getD c 0 = v
    generalize g.getD r [] = row at hc hval ⊢
    rw [List.getD_eq_getElem?_getD, List.getElem?_eq_getElem hc]
    exact hval
  · rintro ⟨c, hc, rfl⟩
    exact get2_mem_row hw hr hc

theorem get2_set2_ne {g : Grid} {r c : Nat} {p : Nat × Nat} (h : p ≠ (r, c)) (v : Nat) :
    get2 (set2 g r c v) p.1 p.2 = get2 g p.1 p.2 :=
  gget_gset_ne 0 g (fun he => h (by cases p; simpa using he.symm)) v

theorem get2_set2_self {g : Grid} (hw : wfb g = true) {r c : Nat} (hr : r < 9) (hc : c < 9)
    (v : Nat) : get2 (set2 g r c v) r c = v :=
  gget_gset_self 0 g (by rw [(wfb_iff.1 hw).1]; omega) (by rw [row_length hw hr]; omega) v

theorem wfb_set2 {g : Grid} (hw : wfb g = true) (r c v : Nat) : wfb (set2 g r c v) = true := by
  rcases wfb_iff.1 hw with ⟨hl, hrows⟩
  refine wfb_iff.2 ⟨by rw [show set2 g r c v = gset g r c v from rfl, length_gset]; exact hl, ?_⟩
  intro row hrow
  rcases mem_gset hrow with h | ⟨r', hr', rfl⟩
  · exact hrows _ h
  · rw [List.length_set]; exact hrows _ hr'

theorem boundedB_set2 {g : Grid} (hb : boundedB g = true) {r c v : Nat} (hv : v ≤ 9) :
    boundedB (set2 g r c v) = true := by
  simp only [boundedB, List.all_eq_true, decide_eq_true_eq] at hb ⊢
  intro row hrow x hx
  rcases mem_gset hrow with h | ⟨r', hr', rfl⟩
  · exact hb _ h _ hx
  · rcases List.mem_or_eq_of_mem_set hx with h | rfl
    · exact hb _ hr' _ h
    · exact hv

/-! ### Characterizing `is_valid` -/

theorem is_valid_parts {g : Grid} {num row col : Nat} :
    is_valid g num row col = true ↔
      num ∉ g.getD row [] ∧ num ∉ (List.range 9).map (fun i => get2 g i col) ∧
      ∀ i < 3, ∀ j < 3, get2 g (3 * (row / 3) + i) (3 * (col / 3) + j) ≠ num := by
  unfold is_valid
  constructor
  · intro h
    split at h
    case isTrue h1 => simp at h
    case isFalse h1 =>
      split at h
      case isTrue h2 => simp at h
      case isFalse h2 =>
        split at h
        case isTrue h3 => simp at h
        case isFalse h3 =>
          refine ⟨h1, h2, ?_⟩
          intro i hi j hj heq
          exact h3 (by
            simp only [List.any_eq_true, List.mem_range, beq_iff_eq]
            exact ⟨i, hi, j, hj, heq⟩)
  · rintro ⟨h1, h2, h3⟩
    rw [if_neg h1, if_neg h2, if_neg ?_]
    simp only [List.any_eq_true, List.mem_range, beq_iff_eq]
    rintro ⟨i, hi, j, hj, heq⟩
    exact h3 i hi j hj heq

theorem is_valid_iff {g : Grid} (hw : wfb g = true) {row col : Nat} (hr : row < 9)
    (hc : col < 9) (num : Nat) :
    is_valid g num row col = true ↔
      ∀ q ∈ allCells, sameUnit (row, col) q → get2 g q.1 q.2 ≠ num := by
  rw [is_valid_parts]
  constructor
  · rintro ⟨h1, h2, h3⟩ q hq hsu heq
    obtain ⟨q1, q2⟩ := q
    rw [mem_allCells] at hq
    rcases hsu with hrow | hcol | hblk
    · have e : row = q1 := hrow
      subst e
      exact h1 ((mem_row_iff hw hr).2 ⟨q2, hq.2, heq⟩)
    · have e : col = q2 := hcol
      subst e
      exact h2 (List.mem_map.2 ⟨q1, List.mem_range.2 hq.1, heq⟩)
    · have e1 : row / 3 = q1 / 3 := hblk.1
      have e2 : col / 3 = q2 / 3 := hblk.2
      have hi : q1 % 3 < 3 := Nat.mod_lt _ (by omega)
      have hj : q2 % 3 < 3 := Nat.mod_lt _ (by omega)
      refine h3 (q1 % 3) hi (q2 % 3) hj ?_
      have e3 : 3 * (row / 3) + q1 % 3 = q1 := by omega
      have e4 : 3 * (col / 3) + q2 % 3 = q2 := by omega
      rw [e3, e4]; exact heq
  · intro h
    refine ⟨fun hmem => ?_, fun hmem => ?_, fun i hi j hj heq => ?_⟩
    · rcases (mem_row_iff hw hr).1 hmem with ⟨c', hc', hval⟩
      exact h (row, c') (mem_allCells.2 ⟨hr, hc'⟩) (.inl rfl) hval
    · rcases List.mem_map.1 hmem with ⟨r', hr', hval⟩
      rw [List.mem_range] at hr'
      exact h (r', col) (mem_allCells.2 ⟨hr', hc⟩) (.inr (.inl rfl)) hval
    · have h1 : 3 * (row / 3) + i < 9 := by omega
      have h2 : 3 * (col / 3) + j < 9 := by omega
      refine h (3 * (row / 3) + i, 3 * (col / 3) + j) (mem_allCells.2 ⟨h1, h2⟩)
        (.inr (.inr ⟨by omega, by omega⟩)) heq

/-- Writing a `is_valid`-checked value into an empty cell preserves the
no-clash invariant. -/
theorem gridOK_set2 {g : Grid} (hw : wfb g = true) (hok : gridOKb g = true)
    {r c num : Nat} (hr : r < 9) (hc : c < 9)
    (hv : is_valid g num r c = true) : gridOKb (set2 g r c num) = true := by
  rw [gridOKb_iff] at hok ⊢
  have hval := (is_valid_iff hw hr hc num).1 hv
  intro p hp q hq hpq hsu hnz
  by_cases hpe : p = (r, c)
  · subst hpe
    have hqe : q ≠ (r, c) := fun he => hpq (by rw [he])
    rw [get2_set2_ne hqe, get2_set2_self hw hr hc]
    exact fun he => hval q hq hsu he.symm
  · rw [get2_set2_ne hpe] at hnz ⊢
    by_cases hqe : q = (r, c)
    · subst hqe
      rw [get2_set2_self hw hr hc]
      exact fun he => hval p hp (sameUnit_symm hsu) he
    · rw [get2_set2_ne hqe]
      exact hok p hp q hq hpq hsu hnz

/-! ### Backtracking: rollback, frame, and soundness -/

/-- `g'` keeps every non-zero cell of `g` unchanged. -/
def agrees (g g' : Grid) : Prop :=
  ∀ p ∈ allCells, get2 g p.1 p.2 ≠ 0 → get2 g' p.1 p.2 = get2 g p.1 p.2

theorem agrees_refl (g : Grid) : agrees g g := fun _ _ _ => rfl

theorem agrees_trans {g1 g2 g3 : Grid} (h12 : agrees g1 g2) (h23 : agrees g2 g3) :
    agrees g1 g3 := by
  intro p hp hnz
  rw [h23 p hp (by rw [h12 p hp hnz]; exact hnz), h12 p hp hnz]

theorem agrees_set2 {g : Grid} {r c : Nat} (h0 : get2 g r c = 0) (num : Nat) :
    agrees g (set2 g r c num) := by
  intro p hp hnz
  have hne : p ≠ (r, c) := by
    rintro rfl
    exact hnz h0
  exact get2_set2_ne hne num

theorem set2_restore {g : Grid} {r c : Nat} (h0 : get2 g r c = 0) (num : Nat) :
    set2 (set2 g r c num) r c 0 = g := by
  show gset (gset g r c num) r c 0 = g
  rw [gset_gset]
  have h := gset_gget_self 0 g r c
  rwa [show gget 0 g r c = 0 from h0] at h

theorem tryList_restore (rec : Grid → Bool × Grid)
    (hrec : ∀ g', (rec g').1 = false → (rec g').2 = g') (row col : Nat) :
    ∀ (nums : List Nat) (g : Grid), get2 g row col = 0 →
      (tryList rec row col nums g).1 = false → (tryList rec row col nums g).2 = g := by
  intro nums
  induction nums with
  | nil => intro g _ _; rfl
  | cons num rest ih =>
    intro g h0 hf
    unfold tryList at hf ⊢
    by_cases hv : is_valid g num row col = true
    · rw [if_pos hv] at hf ⊢
      by_cases hb : (rec (set2 g row col num)).1 = true
      · rw [if_pos hb] at hf; simp at hf
      · rw [if_neg hb] at hf ⊢
        have hb' : (rec (set2 g row col num)).1 = false := by simpa using hb
        rw [hrec _ hb', set2_restore h0] at hf ⊢
        exact ih g h0 hf
    · rw [if_neg hv] at hf ⊢
      exact ih g h0 hf

theorem tryList_agrees (rec : Grid → Bool × Grid)
    (hrec : ∀ g', (rec g').1 = false → (rec g').2 = g')
    (hrecA : ∀ g', agrees g' (rec g').2) (row col : Nat) :
    ∀ (nums : List Nat) (g : Grid), get2 g row col = 0 →
      agrees g (tryList rec row col nums g).2 := by
  intro nums
  induction nums with
  | nil => intro g _; exact agrees_refl g
  | cons num rest ih =>
    intro g h0
    unfold tryList
    by_cases hv : is_valid g num row col = true
    · rw [if_pos hv]
      by_cases hb : (rec (set2 g row col num)).1 = true
      · rw [if_pos hb]
        exact agrees_trans (agrees_set2 h0 num) (hrecA _)
      · rw [if_neg hb]
        have hb' : (rec (set2 g row col num)).1 = false := by simpa using hb
        rw [hrec _ hb', set2_restore h0]
        exact ih g h0
    · rw [if_neg hv]
      exact ih g h0

theorem tryList_full (rec : Grid → Bool × Grid)
    (hrec : ∀ g', (rec g').1 = false → (rec g').2 = g')
    (hrecF : ∀ g', (rec g').1 = true → find_empty_cell (rec g').2 = none) (row col : Nat) :
    ∀ (nums : List Nat) (g : Grid), get2 g row col = 0 →
      (tryList rec row col nums g).1 = true →
      find_empty_cell (tryList rec row col nums g).2 = none := by
  intro nums
  induction nums with
  | nil => intro g _ h; simp [tryList] at h
  | cons num rest ih =>
    intro g h0 ht
    unfold tryList at ht ⊢
    by_cases hv : is_valid g num row col = true
    · rw [if_pos hv] at ht ⊢
      by_cases hb : (rec (set2 g row col num)).1 = true
      · rw [if_pos hb] at ht ⊢
        exact hrecF _ hb
      · rw [if_neg hb] at ht ⊢
        have hb' : (rec (set2 g row col num)).1 = false := by simpa using hb
        rw [hrec _ hb', set2_restore h0] at ht ⊢
        exact ih g h0 ht
    · rw [if_neg hv] at ht ⊢
      exact ih g h0 ht

/-- Core unconditional properties of the backtracking search: on failure the
grid is restored exactly; every originally non-zero cell is preserved; and
success implies the final grid has no empty cell. -/
theorem backtrack_core : ∀ (fuel : Nat) (g : Grid),
    ((backtrack fuel g).1 = false → (backtrack fuel g).2 = g) ∧
    agrees g (backtrack fuel g).2 ∧
    ((backtrack fuel g).1 = true → find_empty_cell (backtrack fuel g).2 = none) := by
  intro fuel
  induction fuel with
  | zero =>
    intro g
    exact ⟨fun _ => rfl, agrees_refl g, fun h => by simp [backtrack] at h⟩
  | succ n ih =>
    intro g
    cases hfe : find_empty_cell g with
    | none =>
      have heq : backtrack (n + 1) g = (true, g) := by unfold backtrack; rw [hfe]
      rw [heq]
      exact ⟨fun h => by simp at h, agrees_refl g, fun _ => hfe⟩
    | some rc =>
      have heq : backtrack (n + 1) g =
          tryList (backtrack n) rc.1 rc.2 [1, 2, 3, 4, 5, 6, 7, 8, 9] g := by
        unfold backtrack; rw [hfe]
      have h0 := (find_empty_some hfe).2.2
      rw [heq]
      exact ⟨tryList_restore _ (fun g' => (ih g').1) _ _ _ g h0,
             tryList_agrees _ (fun g' => (ih g').1) (fun g' => (ih g').2.1) _ _ _ g h0,
             tryList_full _ (fun g' => (ih g').1) (fun g' => (ih g').2.2) _ _ _ g h0⟩

theorem tryList_sound (rec : Grid → Bool × Grid)
    (hrec : ∀ g', (rec g').1 = false → (rec g').2 = g')
    (hrecS : ∀ g', wfb g' = true → boundedB g' = true → gridOKb g' = true →
      (rec g').1 = true →
      wfb (rec g').2 = true ∧ boundedB (rec g').2 = true ∧ gridOKb (rec g').2 = true)
    {row col : Nat} (hr : row < 9) (hc : col < 9) :
    ∀ nums : List Nat, (∀ n ∈ nums, 1 ≤ n ∧ n ≤ 9) →
      ∀ g : Grid, wfb g = true → boundedB g = true → gridOKb g = true →
        get2 g row col = 0 → (tryList rec row col nums g).1 = true →
        wfb (tryList rec row col nums g).2 = true ∧
        boundedB (tryList rec row col nums g).2 = true ∧
        gridOKb (tryList rec row col nums g).2 = true := by
  intro nums
  induction nums with
  | nil => intro _ g _ _ _ _ h; simp [tryList] at h
  | cons num rest ih =>
    intro hnums g hw hb hok h0 ht
    unfold tryList at ht ⊢
    by_cases hv : is_valid g num row col = true
    · rw [if_pos hv] at ht ⊢
      by_cases hrb : (rec (set2 g row col num)).1 = true
      · rw [if_pos hrb] at ht ⊢
        exact hrecS _ (wfb_set2 hw row col num)
          (boundedB_set2 hb (hnums num (by simp)).2)
          (gridOK_set2 hw hok hr hc hv) hrb
      · rw [if_neg hrb] at ht ⊢
        have hb' : (rec (set2 g row col num)).1 = false := by simpa using hrb
        rw [hrec _ hb', set2_restore h0] at ht ⊢
        exact ih (fun n hn => hnums n (by simp [hn])) g hw hb hok h0 ht
    · rw [if_neg hv] at ht ⊢
      exact ih (fun n hn => hnums n (by simp [hn])) g hw hb hok h0 ht

/-- On success, backtracking preserves well-formedness, the value bound, and
the no-clash invariant of the board. -/
theorem backtrack_sound : ∀ (fuel : Nat) (g : Grid), wfb g = true → boundedB g = true →
    gridOKb g = true → (backtrack fuel g).1 = true →
    wfb (backtrack fuel g).2 = true ∧ boundedB (backtrack fuel g).2 = true ∧
    gridOKb (backtrack fuel g).2 = true := by
  intro fuel
  induction fuel with
  | zero => intro g _ _ _ h; simp [backtrack] at h
  | succ n ih =>
    intro g hw hb hok ht
    cases hfe : find_empty_cell g with
    | none =>
      have heq : backtrack (n + 1) g = (true, g) := by unfold backtrack; rw [hfe]
      rw [heq]
      exact ⟨hw, hb, hok⟩
    | some rc =>
      have heq : backtrack (n + 1) g =
          tryList (backtrack n) rc.1 rc.2 [1, 2, 3, 4, 5, 6, 7, 8, 9] g := by
        unfold backtrack; rw [hfe]
      rw [heq] at ht ⊢
      rcases find_empty_some hfe with ⟨hr, hc, h0⟩
      exact tryList_sound _ (fun g' => (backtrack_core n g').1) ih hr hc _
        (by decide) g hw hb hok h0 ht

/-! ### Backtracking completeness -/

/-- Number of empty cells of the board. -/
def emptyCount (g : Grid) : Nat := allCells.countP fun p => get2 g p.1 p.2 == 0

theorem emptyCount_le (g : Grid) : emptyCount g ≤ 81 := by
  have h := List.countP_le_length (p := fun p : Nat × Nat => get2 g p.1 p.2 == 0)
    (l := allCells)
  have hlen : allCells.length = 81 := by decide
  unfold emptyCount
  omega

theorem countP_update {α : Type _} (p q : α → Bool) (a : α) :
    ∀ l : List α, l.Nodup → a ∈ l → p a = true → q a = false →
      (∀ b ∈ l, b ≠ a → q b = p b) → l.countP q + 1 = l.countP p := by
  intro l
  induction l with
  | nil => intro _ h; simp at h
  | cons x t ih =>
    intro hnd hmem hpa hqa hagree
    rcases List.mem_cons.1 hmem with rfl | hmem'
    · rw [List.countP_cons, List.countP_cons, hpa, hqa]
      have ht : t.countP q = t.countP p := by
        apply List.countP_congr
        intro b hb
        have hbx : b ≠ a := by rintro rfl; exact (List.nodup_cons.1 hnd).1 hb
        rw [hagree b (by simp [hb]) hbx]
      simp [ht]
    · have hxa : x ≠ a := by rintro rfl; exact (List.nodup_cons.1 hnd).1 hmem'
      rw [List.countP_cons, List.countP_cons, hagree x (by simp) hxa]
      have := ih (List.nodup_cons.1 hnd).2 hmem' hpa hqa
        (fun b hb hba => hagree b (by simp [hb]) hba)
      omega

theorem emptyCount_set2 {g : Grid} (hw : wfb g = true) {r c : Nat} (hr : r < 9) (hc : c < 9)
    (h0 : get2 g r c = 0) {num : Nat} (hnum : num ≠ 0) :
    emptyCount (set2 g r c num) + 1 = emptyCount g := by
  unfold emptyCount
  apply countP_update _ _ (r, c) allCells allCells_nodup (mem_allCells.2 ⟨hr, hc⟩)
  · simpa using h0
  · simp only [get2_set2_self hw hr hc num]
    simpa using hnum
  · intro b _ hba
    rw [get2_set2_ne hba]

/-- `solCheck s g`: `s` is a full valid board (values 1–9, no clash in any
row, column, or block) that extends the puzzle `g` on its given cells. -/
def solCheck (s g : Grid) : Bool :=
  wfb s &&
  allCells.all (fun p => decide (1 ≤ get2 s p.1 p.2) && decide (get2 s p.1 p.2 ≤ 9)) &&
  gridOKb s &&
  allCells.all fun p => (get2 g p.1 p.2 == 0) || (get2 s p.1 p.2 == get2 g p.1 p.2)

theorem solCheck_iff {s g : Grid} : solCheck s g = true ↔
    wfb s = true ∧
    (∀ p ∈ allCells, 1 ≤ get2 s p.1 p.2 ∧ get2 s p.1 p.2 ≤ 9) ∧
    gridOKb s = true ∧
    ∀ p ∈ allCells, get2 g p.1 p.2 ≠ 0 → get2 s p.1 p.2 = get2 g p.1 p.2 := by
  unfold solCheck
  simp only [Bool.and_eq_true, List.all_eq_true, Bool.and_eq_true, decide_eq_true_eq,
    Bool.or_eq_true, beq_iff_eq]
  constructor
  · rintro ⟨⟨⟨h1, h2⟩, h3⟩, h4⟩
    exact ⟨h1, fun p hp => h2 p hp, h3, fun p hp hnz => ((h4 p hp).resolve_left hnz)⟩
  · rintro ⟨h1, h2, h3, h4⟩
    refine ⟨⟨⟨h1, fun p hp => h2 p hp⟩, h3⟩, fun p hp => ?_⟩
    by_cases hz : get2 g p.1 p.2 = 0
    · exact .inl hz
    · exact .inr (h4 p hp hz)

theorem tryList_complete (rec : Grid → Bool × Grid)
    (hrec : ∀ g', (rec g').1 = false → (rec g').2 = g') {row col : Nat} :
    ∀ (nums : List Nat) (g : Grid), get2 g row col = 0 →
      (∃ num ∈ nums, is_valid g num row col = true ∧ (rec (set2 g row col num)).1 = true) →
      (tryList rec row col nums g).1 = true := by
  intro nums
  induction nums with
  | nil => rintro g _ ⟨num, h, _⟩; simp at h
  | cons num rest ih =>
    rintro g h0 ⟨w, hwmem, hwv, hws⟩
    unfold tryList
    by_cases hv : is_valid g num row col = true
    · rw [if_pos hv]
      by_cases hb : (rec (set2 g row col num)).1 = true
      · rw [if_pos hb]
      · rw [if_neg hb]
        have hb' : (rec (set2 g row col num)).1 = false := by simpa using hb
        rw [hrec _ hb', set2_restore h0]
        apply ih g h0
        rcases List.mem_cons.1 hwmem with rfl | hmem
        · exact absurd hws hb
        · exact ⟨w, hmem, hwv, hws⟩
    · rw [if_neg hv]
      apply ih g h0
      rcases List.mem_cons.1 hwmem with rfl | hmem
      · exact absurd hwv hv
      · exact ⟨w, hmem, hwv, hws⟩

/-- Completeness: if a full valid solution extending `g` exists and the fuel
exceeds the number of empty cells, the backtracking search succeeds. -/
theorem backtrack_complete : ∀ (fuel : Nat) (g s : Grid), wfb g = true →
    solCheck s g = true → emptyCount g < fuel → (backtrack fuel g).1 = true := by
  intro fuel
  induction fuel with
  | zero => intro g s _ _ h; omega
  | succ n ih =>
    intro g s hw hs hcount
    cases hfe : find_empty_cell g with
    | none =>
      unfold backtrack
      rw [hfe]
    | some rc =>
      obtain ⟨r, c⟩ := rc
      have heq : backtrack (n + 1) g =
          tryList (backtrack n) r c [1, 2, 3, 4, 5, 6, 7, 8, 9] g := by
        unfold backtrack; rw [hfe]
      rcases find_empty_some hfe with ⟨hr0, hc0, h00⟩
      have hr : r < 9 := hr0
      have hc : c < 9 := hc0
      have h0 : get2 g r c = 0 := h00
      rcases solCheck_iff.1 hs with ⟨hws, hbnd, hok, hext⟩
      set v := get2 s r c with hv
      have hrc_mem : (r, c) ∈ allCells := mem_allCells.2 ⟨hr, hc⟩
      have hv1 : 1 ≤ v := (hbnd _ hrc_mem).1
      have hv9 : v ≤ 9 := (hbnd _ hrc_mem).2
      have hvne : v ≠ 0 := by omega
      have hvmem : v ∈ [1, 2, 3, 4, 5, 6, 7, 8, 9] := by
        interval_cases v <;> simp
      have hvalid : is_valid g v r c = true := by
        rw [is_valid_iff hw hr hc]
        intro q hq hsu heq'
        have hqs : get2 s q.1 q.2 = v := by
          rw [hext q hq (by rw [heq']; exact hvne), heq']
        have hqne : (r, c) ≠ q := by
          rintro rfl
          rw [h0] at heq'
          exact hvne heq'.symm
        refine (gridOKb_iff.1 hok _ hrc_mem _ hq) hqne hsu ?_ ?_
        · show get2 s r c ≠ 0
          rw [← hv]; exact hvne
        · show get2 s r c = get2 s q.1 q.2
          rw [hqs, ← hv]
      have hsset : solCheck s (set2 g r c v) = true := by
        rw [solCheck_iff]
        refine ⟨hws, hbnd, hok, ?_⟩
        intro p hp hnz
        by_cases hpe : p = (r, c)
        · subst hpe
          rw [get2_set2_self hw hr hc]
        · rw [get2_set2_ne hpe] at hnz ⊢
          exact hext p hp hnz
      have hcth : emptyCount (set2 g r c v) < n := by
        have := emptyCount_set2 hw hr hc h0 hvne
        omega
      rw [heq]
      apply tryList_complete _ (fun g' => (backtrack_core n g').1) _ g h0
      exact ⟨v, hvmem, hvalid, ih _ s (wfb_set2 hw r c v) hsset hcth⟩

/-! ### The AC-3 solver -/

/-- `get_neighbors` from `ac3_solve`: all cells sharing the row, column, or
3×3 block of `(row, col)`, excluding the cell itself. The source builds a
Python `set`; the embedding keeps first-insertion order and removes
duplicates with `dedup`, preserving the set's membership semantics. -/
def get_neighbors (row col : Nat) : List (Nat × Nat) :=
  (((List.range 9).flatMap fun k =>
      (if k ≠ col then [(row, k)] else []) ++
      (if k ≠ row then [(k, col)] else []) ++
      [(row - row % 3 + k / 3, col - col % 3 + k % 3)]).dedup).filter
    fun p => p != (row, col)

/-- The 9×9 table of per-cell candidate domains; each domain embeds a Python
`set` of digits as a duplicate-free list. -/
abbrev DomGrid := List (List (List Nat))

/-- `get_domain` from `ac3_solve`: the singleton of a filled cell's value,
else the digits 1–9 minus every value present in the cell's row, column, and
block. -/
def get_domain (g : Grid) (row col : Nat) : List Nat :=
  if get2 g row col ≠ 0 then [get2 g row col]
  else (List.range' 1 9).filter fun v =>
    (List.range 9).all fun k =>
      (get2 g row k != v) && (get2 g k col != v) &&
      (get2 g (row - row % 3 + k / 3) (col - col % 3 + k % 3) != v)

/-- The dict `domains = {(row, col): get_domain(...) for row in range(9) for
col in range(9)}`, as a 9×9 table. -/
def initDomains (g : Grid) : DomGrid :=
  (List.range 9).map fun r => (List.range 9).map fun c => get_domain g r c

/-- Look up `domains[(i, j)]`. -/
def getDom (d : DomGrid) (i j : Nat) : List Nat := gget [] d i j

/-- In-place update of `domains[(i, j)]`. -/
def setDom (d : DomGrid) (i j : Nat) (x : List Nat) : DomGrid := gset d i j x

/-- The queue is seeded with every currently-empty cell, in row-major
order. -/
def initQueue (g : Grid) : List (Nat × Nat) :=
  allCells.filter fun p => get2 g p.1 p.2 == 0

/-- `revise` from `ac3_solve`: when `xi`'s domain is a singleton that meets
`xj`'s domain, the singleton value is removed from `xj`'s domain (the source
mutates `domains[xj]` in place via `xj_domain -= xi_domain`). Returns the
updated domains together with the `revised` flag. -/
def reviseStep (d : DomGrid) (xi xj : Nat × Nat) : DomGrid × Bool :=
  if (getDom d xi.1 xi.2).length = 1 then
    if (getDom d xj.1 xj.2).any (fun v => (getDom d xi.1 xi.2).contains v) then
      (setDom d xj.1 xj.2 ((getDom d xj.1 xj.2).filter
        fun v => !(getDom d xi.1 xi.2).contains v), true)
    else (d, false)
  else (d, false)

/-- The inner `for neighbor in get_neighbors(row, col)` loop of the revision
loop. After a successful revision the source tests
`len(domains[(row, col)]) == 0` — on the dequeued cell, not on the revised
neighbor — and `return False` (here `none`); otherwise the neighbor is
appended to the queue. The `assert neighbor in domains` of the source is not
modelled as a branch: its condition is proved to hold for every neighbor of
every cell (see the claim-C9 theorem). -/
def processNeighbors (cell : Nat × Nat) :
    List (Nat × Nat) → DomGrid → List (Nat × Nat) → Option (DomGrid × List (Nat × Nat))
  | [], d, q => some (d, q)
  | nb :: rest, d, q =>
    if (reviseStep d cell nb).2 then
      if (getDom (reviseStep d cell nb).1 cell.1 cell.2).length = 0 then none
      else processNeighbors cell rest (reviseStep d cell nb).1 (q ++ [nb])
    else processNeighbors cell rest d q

/-- Result of the fueled revision loop: `fuelOut` marks fuel exhaustion
(proved unreachable for the fuel used by `ac3_solve`), `fail` is the
`return False` of the source, `ok` carries the final domains. -/
inductive LoopRes where
  | fuelOut : LoopRes
  | fail : LoopRes
  | ok : DomGrid → LoopRes
deriving DecidableEq

/-- `isOut r` iff `r` is the fuel-exhaustion marker. -/
def LoopRes.isOut : LoopRes → Bool
  | .fuelOut => true
  | _ => false

/-- The `while queue:` revision loop of `ac3_solve`, one unit of fuel per
dequeued cell. -/
def ac3Loop : Nat → DomGrid → List (Nat × Nat) → LoopRes
  | _, d, [] => .ok d
  | 0, _, _ :: _ => .fuelOut
  | fuel + 1, d, cell :: rest =>
    match processNeighbors cell (get_neighbors cell.1 cell.2) d rest with
    | none => .fail
    | some (d', q') => ac3Loop fuel d' q'

/-- Total number of candidate values in one row of domains. -/
def rowTotal (row : List (List Nat)) : Nat := (row.map List.length).sum

/-- Total number of candidate values over all domains. -/
def totalLen (d : DomGrid) : Nat := (d.map rowTotal).sum

/-- Fuel that always suffices for the revision loop: every iteration either
consumes a queue entry without re-enqueueing, or strictly shrinks a domain
for each re-enqueued cell (see `ac3Loop_no_fuelOut`). -/
def ac3Fuel (g : Grid) : Nat := totalLen (initDomains g) + (initQueue g).length

/-- One step of the `for row, col in domains:` application loop of
`ac3_solve`: `self.puzzle[row][col] = domains[(row, col)].pop()` when the
domain is a singleton (`pop` of a singleton set yields its element). -/
def applyStep (d : DomGrid) (acc : Grid) (p : Nat × Nat) : Grid :=
  if (getDom d p.1 p.2).length = 1 then set2 acc p.1 p.2 ((getDom d p.1 p.2).headD 0)
  else acc

/-- The application loop over all 81 cells, in the dict's (row-major)
iteration order. -/
def applySingles (g : Grid) (d : DomGrid) : Grid :=
  allCells.foldl (applyStep d) g

/-- `ac3_solve` from the source: initialize domains, seed the queue with the
empty cells, run the revision loop, write every singleton domain into the
grid, and — if the grid is not full — fall back to `backtracking_solve`,
whose boolean result is discarded; `True` is returned whenever the loop did
not signal failure. -/
def ac3_solve (g : Grid) : Bool × Grid :=
  match ac3Loop (ac3Fuel g) (initDomains g) (initQueue g) with
  | .fail => (false, g)
  | .fuelOut => (false, g)
  | .ok d' =>
    (true, if check_win (applySingles g d') then applySingles g d'
           else (backtracking_solve (applySingles g d')).2)

/-- The revision loop as run by `ac3_solve` on grid `g`. -/
def loopOf (g : Grid) : LoopRes := ac3Loop (ac3Fuel g) (initDomains g) (initQueue g)

/-- The final domains computed by the revision loop (defaulting to `[]` on
the unreachable non-`ok` results). -/
def loopDoms (g : Grid) : DomGrid :=
  match loopOf g with
  | .ok d => d
  | _ => []

/-! ### The failure branch of the revision loop is unreachable -/

theorem mem_get_neighbors_ne {row col : Nat} {p : Nat × Nat}
    (h : p ∈ get_neighbors row col) : p ≠ (row, col) := by
  have hb := (List.mem_filter.1 h).2
  simpa using hb

theorem getDom_ne_nil_bounds {d : DomGrid} {i j : Nat} (h : getDom d i j ≠ []) :
    i < d.length ∧ j < (d.getD i []).length := by
  constructor
  · by_contra hi
    apply h
    show (d.getD i []).getD j [] = []
    rw [List.getD_eq_default d [] (by omega)]
    rfl
  · by_contra hj
    apply h
    show (d.getD i []).getD j [] = []
    exact List.getD_eq_default (d.getD i []) [] (by omega)

theorem reviseStep_true {d : DomGrid} {xi xj : Nat × Nat}
    (h : (reviseStep d xi xj).2 = true) :
    (getDom d xi.1 xi.2).length = 1 ∧
    (∃ v ∈ getDom d xj.1 xj.2, (getDom d xi.1 xi.2).contains v = true) ∧
    (reviseStep d xi xj).1 = setDom d xj.1 xj.2 ((getDom d xj.1 xj.2).filter
      fun v => !(getDom d xi.1 xi.2).contains v) := by
  unfold reviseStep at h ⊢
  split at h
  case isTrue h1 =>
    split at h
    case isTrue h2 =>
      rcases List.any_eq_true.1 h2 with ⟨v, hv, hc⟩
      rw [if_pos h1, if_pos h2]
      exact ⟨h1, ⟨v, hv, hc⟩, rfl⟩
    case isFalse h2 => simp at h
  case isFalse h1 => simp at h

theorem reviseStep_false {d : DomGrid} {xi xj : Nat × Nat}
    (h : (reviseStep d xi xj).2 = false) : (reviseStep d xi xj).1 = d := by
  unfold reviseStep at h ⊢
  split at h
  case isTrue h1 =>
    split at h
    case isTrue h2 => simp at h
    case isFalse h2 => rw [if_pos h1, if_neg h2]
  case isFalse h1 => rw [if_neg h1]

theorem getDom_setDom_ne {d : DomGrid} {p q : Nat × Nat} (h : p ≠ q) (x : List Nat) :
    getDom (setDom d p.1 p.2 x) q.1 q.2 = getDom d q.1 q.2 :=
  gget_gset_ne [] d (by simpa using h) x

theorem processNeighbors_some (cell : Nat × Nat) :
    ∀ (nbs : List (Nat × Nat)) (d : DomGrid) (q : List (Nat × Nat)),
      (∀ nb ∈ nbs, nb ≠ cell) →
      ∃ d' q', processNeighbors cell nbs d q = some (d', q') := by
  intro nbs
  induction nbs with
  | nil => intro d q _; exact ⟨d, q, rfl⟩
  | cons nb rest ih =>
    intro d q hne
    unfold processNeighbors
    by_cases hrev : (reviseStep d cell nb).2 = true
    · rw [if_pos hrev]
      have h1 := (reviseStep_true hrev).1
      have h3 := (reviseStep_true hrev).2.2
      have hcd : getDom (reviseStep d cell nb).1 cell.1 cell.2 = getDom d cell.1 cell.2 := by
        rw [h3]
        exact getDom_setDom_ne (hne nb (by simp)) _
      rw [if_neg (by rw [hcd, h1]; omega)]
      exact ih _ _ fun x hx => hne x (by simp [hx])
    · rw [if_neg hrev]
      exact ih _ _ fun x hx => hne x (by simp [hx])

theorem neighbors_ne_cell (cell : Nat × Nat) :
    ∀ nb ∈ get_neighbors cell.1 cell.2, nb ≠ cell := by
  intro nb hnb
  have := mem_get_neighbors_ne hnb
  simpa using this

/-- The `return False` branch of the revision loop can never run: the
emptiness test is made on the dequeued cell's domain, which is a singleton
whenever a revision has just succeeded. -/
theorem ac3Loop_ne_fail : ∀ (fuel : Nat) (d : DomGrid) (q : List (Nat × Nat)),
    ac3Loop fuel d q = .fail → False := by
  intro fuel
  induction fuel with
  | zero =>
    intro d q h
    cases q with
    | nil => simp [ac3Loop] at h
    | cons a t => simp [ac3Loop] at h
  | succ n ih =>
    intro d q h
    cases q with
    | nil => simp [ac3Loop] at h
    | cons cell rest =>
      obtain ⟨d', q', hp⟩ :=
        processNeighbors_some cell _ d rest (neighbors_ne_cell cell)
      unfold ac3Loop at h
      rw [hp] at h
      exact ih d' q' h

/-! ### Termination of the revision loop -/

theorem sum_map_set {α : Type _} (f : α → Nat) (d0 : α) :
    ∀ (l : List α) (j : Nat) (x : α), j < l.length →
      ((l.set j x).map f).sum + f (l.getD j d0) = (l.map f).sum + f x := by
  intro l
  induction l with
  | nil => intro j x h; simp at h
  | cons a t ih =>
    intro j x h
    cases j with
    | zero =>
      simp only [List.set, List.map_cons, List.sum_cons, List.getD_cons_zero]
      omega
    | succ n =>
      simp only [List.set, List.map_cons, List.sum_cons, List.getD_cons_succ]
      have := ih n x (by simpa using h)
      omega

theorem totalLen_setDom {d : DomGrid} {i j : Nat} (hi : i < d.length)
    (hj : j < (d.getD i []).length) (x : List Nat) :
    totalLen (setDom d i j x) + (getDom d i j).length = totalLen d + x.length := by
  have h1 := sum_map_set rowTotal ([] : List (List Nat)) d i ((d.getD i []).set j x) hi
  have h2' := sum_map_set List.length ([] : List Nat) (d.getD i []) j x hj
  have h2 : rowTotal ((d.getD i []).set j x) + ((d.getD i []).getD j []).length
      = rowTotal (d.getD i []) + x.length := h2'
  show totalLen (d.set i ((d.getD i []).set j x)) + ((d.getD i []).getD j []).length
    = totalLen d + x.length
  unfold totalLen
  omega

theorem length_filter_lt {l : List Nat} {pr : Nat → Bool} {v : Nat} (hv : v ∈ l)
    (hpv : pr v = false) : (l.filter pr).length < l.length := by
  induction l with
  | nil => simp at hv
  | cons a t ih =>
    rcases List.mem_cons.1 hv with rfl | hm
    · have hle := List.length_filter_le pr t
      simp [List.filter_cons, hpv]
      omega
    · by_cases hpa : pr a = true
      · have := ih hm
        simp [List.filter_cons, hpa]
        omega
      · rw [Bool.not_eq_true] at hpa
        have := ih hm
        simp [List.filter_cons, hpa]
        omega

theorem reviseStep_totalLen {d : DomGrid} {xi xj : Nat × Nat}
    (h : (reviseStep d xi xj).2 = true) :
    totalLen (reviseStep d xi xj).1 < totalLen d := by
  obtain ⟨h1, ⟨v, hvmem, hvcont⟩, h3⟩ := reviseStep_true h
  have hne : getDom d xj.1 xj.2 ≠ [] := by
    intro he; rw [he] at hvmem; simp at hvmem
  obtain ⟨hi, hj⟩ := getDom_ne_nil_bounds hne
  have hlt : ((getDom d xj.1 xj.2).filter fun w => !(getDom d xi.1 xi.2).contains w).length
      < (getDom d xj.1 xj.2).length :=
    length_filter_lt hvmem
      (by show (!(getDom d xi.1 xi.2).contains v) = false; rw [hvcont]; decide)
  have htot := totalLen_setDom hi hj
    ((getDom d xj.1 xj.2).filter fun w => !(getDom d xi.1 xi.2).contains w)
  rw [h3]
  have : getDom d xj.1 xj.2 = (d.getD xj.1 []).getD xj.2 [] := rfl
  omega

theorem processNeighbors_measure (cell : Nat × Nat) :
    ∀ (nbs : List (Nat × Nat)) (d : DomGrid) (q : List (Nat × Nat)) (d' : DomGrid)
      (q' : List (Nat × Nat)), processNeighbors cell nbs d q = some (d', q') →
      totalLen d' + q'.length ≤ totalLen d + q.length := by
  intro nbs
  induction nbs with
  | nil =>
    intro d q d' q' h
    simp only [processNeighbors, Option.some.injEq, Prod.mk.injEq] at h
    obtain ⟨rfl, rfl⟩ := h
    exact le_refl _
  | cons nb rest ih =>
    intro d q d' q' h
    unfold processNeighbors at h
    by_cases hrev : (reviseStep d cell nb).2 = true
    · rw [if_pos hrev] at h
      by_cases hz : (getDom (reviseStep d cell nb).1 cell.1 cell.2).length = 0
      · rw [if_pos hz] at h; exact absurd h (by simp)
      · rw [if_neg hz] at h
        have hm := ih _ _ _ _ h
        have hd := reviseStep_totalLen hrev
        have hq : (q ++ [nb]).length = q.length + 1 := by simp
        omega
    · rw [if_neg hrev] at h
      exact ih _ _ _ _ h

/-- Fuel sufficiency for the revision loop: each iteration consumes one
unit of the measure (total domain size + queue length), so starting fuel
equal to the measure can never run out. -/
theorem ac3Loop_no_fuelOut : ∀ (fuel : Nat) (d : DomGrid) (q : List (Nat × Nat)),
    totalLen d + q.length ≤ fuel → (ac3Loop fuel d q).isOut = false := by
  intro fuel
  induction fuel with
  | zero =>
    intro d q h
    cases q with
    | nil => rfl
    | cons a t => simp at h
  | succ n ih =>
    intro d q h
    cases q with
    | nil => rfl
    | cons cell rest =>
      obtain ⟨d', q', hp⟩ :=
        processNeighbors_some cell _ d rest (neighbors_ne_cell cell)
      have hm := processNeighbors_measure cell _ d rest d' q' hp
      show (ac3Loop (n + 1) d (cell :: rest)).isOut = false
      unfold ac3Loop
      rw [hp]
      apply ih
      have hlen : (cell :: rest).length = rest.length + 1 := rfl
      omega

/-! ### Loop invariants relating the domains to a solution -/

theorem getD_mem {α : Type _} {l : List α} {i : Nat} (h : i < l.length) (d : α) :
    l.getD i d ∈ l := by
  rw [List.getD_eq_getElem _ _ h]
  exact List.getElem_mem h

/-- Every neighbor lies on the board and shares a unit with its cell. -/
theorem neighbors_spec :
    ∀ r ∈ List.range 9, ∀ c ∈ List.range 9, ∀ p ∈ get_neighbors r c,
      p.1 < 9 ∧ p.2 < 9 ∧ sameUnit (r, c) p := by decide

/-- The domain table is a 9×9 matrix. -/
def domShape (d : DomGrid) : Prop := d.length = 9 ∧ ∀ row ∈ d, row.length = 9

theorem domShape_init (g : Grid) : domShape (initDomains g) := by
  constructor
  · simp [initDomains]
  · intro row hrow
    rcases List.mem_map.1 hrow with ⟨r, _, rfl⟩
    simp

theorem domShape_setDom {d : DomGrid} (h : domShape d) (i j : Nat) (x : List Nat) :
    domShape (setDom d i j x) := by
  obtain ⟨hl, hrows⟩ := h
  refine ⟨by rw [show setDom d i j x = gset d i j x from rfl, length_gset]; exact hl, ?_⟩
  intro row hrow
  rcases mem_gset hrow with h' | ⟨r', hr', rfl⟩
  · exact hrows _ h'
  · rw [List.length_set]; exact hrows _ hr'

theorem getDom_bounds {d : DomGrid} (h : domShape d) {i j : Nat}
    (hne : getDom d i j ≠ []) : i < 9 ∧ j < 9 := by
  obtain ⟨hi, hj⟩ := getDom_ne_nil_bounds hne
  obtain ⟨hl, hrows⟩ := h
  refine ⟨by omega, ?_⟩
  have := hrows _ (getD_mem hi [])
  omega

theorem getDom_setDom_self {d : DomGrid} (h : domShape d) {i j : Nat} (hi : i < 9)
    (hj : j < 9) (x : List Nat) : getDom (setDom d i j x) i j = x := by
  obtain ⟨hl, hrows⟩ := h
  have hi' : i < d.length := by omega
  have hj' : j < (d.getD i []).length := by
    rw [hrows _ (getD_mem hi' [])]; omega
  exact gget_gset_self [] d hi' hj' x

/-- `s` picks a value inside every cell's domain. -/
def conforms (s : Grid) (d : DomGrid) : Prop :=
  ∀ p ∈ allCells, get2 s p.1 p.2 ∈ getDom d p.1 p.2

/-- Pointwise inclusion of domain tables. -/
def domLe (d d0 : DomGrid) : Prop :=
  ∀ p ∈ allCells, ∀ v ∈ getDom d p.1 p.2, v ∈ getDom d0 p.1 p.2

theorem domLe_refl (d : DomGrid) : domLe d d := fun _ _ _ hv => hv

theorem domLe_trans {d1 d2 d3 : DomGrid} (h12 : domLe d1 d2) (h23 : domLe d2 d3) :
    domLe d1 d3 := fun p hp v hv => h23 p hp v (h12 p hp v hv)

theorem getDom_initDomains {g : Grid} {i j : Nat} (hi : i < 9) (hj : j < 9) :
    getDom (initDomains g) i j = get_domain g i j := by
  show ((initDomains g).getD i []).getD j [] = get_domain g i j
  have h1 : (initDomains g).getD i [] = (List.range 9).map fun c => get_domain g i c := by
    unfold initDomains
    rw [List.getD_eq_getElem?_getD, List.getElem?_map, List.getElem?_range hi]
    rfl
  rw [h1, List.getD_eq_getElem?_getD, List.getElem?_map, List.getElem?_range hj]
  rfl

theorem get_domain_pred_iff {g : Grid} {row col : Nat} (hr : row < 9) (hc : col < 9)
    {v : Nat} :
    ((List.range 9).all fun k =>
      (get2 g row k != v) && (get2 g k col != v) &&
      (get2 g (row - row % 3 + k / 3) (col - col % 3 + k % 3) != v)) = true ↔
    ∀ q ∈ allCells, sameUnit (row, col) q → get2 g q.1 q.2 ≠ v := by
  simp only [List.all_eq_true, List.mem_range, Bool.and_eq_true, bne_iff_ne, ne_eq]
  constructor
  · intro h q hq hsu heq
    obtain ⟨q1, q2⟩ := q
    rw [mem_allCells] at hq
    rcases hsu with hrow | hcol | hblk
    · have e : row = q1 := hrow
      subst e
      exact ((h q2 hq.2).1).1 heq
    · have e : col = q2 := hcol
      subst e
      exact ((h q1 hq.1).1).2 heq
    · have e1 : row / 3 = q1 / 3 := hblk.1
      have e2 : col / 3 = q2 / 3 := hblk.2
      have hk : 3 * (q1 % 3) + q2 % 3 < 9 := by omega
      have hb := (h (3 * (q1 % 3) + q2 % 3) hk).2
      have e3 : row - row % 3 + (3 * (q1 % 3) + q2 % 3) / 3 = q1 := by omega
      have e4 : col - col % 3 + (3 * (q1 % 3) + q2 % 3) % 3 = q2 := by omega
      rw [e3, e4] at hb
      exact hb heq
  · intro h k hk
    refine ⟨⟨fun he => ?_, fun he => ?_⟩, fun he => ?_⟩
    · exact h (row, k) (mem_allCells.2 ⟨hr, hk⟩) (.inl rfl) he
    · exact h (k, col) (mem_allCells.2 ⟨hk, hc⟩) (.inr (.inl rfl)) he
    · refine h (row - row % 3 + k / 3, col - col % 3 + k % 3)
        (mem_allCells.2 ⟨by omega, by omega⟩) (.inr (.inr ⟨by omega, by omega⟩)) he

/-- If `s` is a full valid solution of `g`, the initial domains all contain
`s`'s value. -/
theorem conforms_init {s g : Grid} (hs : solCheck s g = true) :
    conforms s (initDomains g) := by
  rcases solCheck_iff.1 hs with ⟨hws, hbnd, hok, hext⟩
  intro p hp
  have hp1 : p.1 < 9 := (mem_allCells.1 hp).1
  have hp2 : p.2 < 9 := (mem_allCells.1 hp).2
  rw [getDom_initDomains hp1 hp2]
  unfold get_domain
  have hv1 : 1 ≤ get2 s p.1 p.2 := (hbnd _ hp).1
  have hv9 : get2 s p.1 p.2 ≤ 9 := (hbnd _ hp).2
  by_cases hz : get2 g p.1 p.2 ≠ 0
  · rw [if_pos hz]
    have := hext _ hp hz
    simp [this]
  · rw [if_neg hz]
    push_neg at hz
    rw [List.mem_filter]
    constructor
    · have hmem : ∀ v : Nat, 1 ≤ v → v ≤ 9 → v ∈ List.range' 1 9 := by decide
      exact hmem _ hv1 hv9
    · rw [get_domain_pred_iff hp1 hp2]
      intro q hq hsu heq
      have hqz : get2 g q.1 q.2 ≠ 0 := by
        intro h0'
        rw [h0'] at heq
        omega
      have hqs : get2 s q.1 q.2 = get2 s p.1 p.2 := by rw [hext q hq hqz, heq]
      have hqne : p ≠ q := by
        rintro rfl
        exact hqz hz
      exact (gridOKb_iff.1 hok _ hp _ hq) hqne hsu
        (by show get2 s p.1 p.2 ≠ 0; omega) hqs.symm

/-- A revision never removes the solution's value: values are only removed
from a neighbor's domain when the revising cell's domain is the singleton of
the solution's value there, and the solution assigns neighbors distinct
values. -/
theorem reviseStep_inv {s : Grid} {d : DomGrid} {cell nb : Nat × Nat}
    (hsok : gridOKb s = true) (hspos : ∀ p ∈ allCells, get2 s p.1 p.2 ≠ 0)
    (hshape : domShape d) (hconf : conforms s d)
    (hnb : nb ∈ get_neighbors cell.1 cell.2) :
    domShape (reviseStep d cell nb).1 ∧ conforms s (reviseStep d cell nb).1 ∧
      domLe (reviseStep d cell nb).1 d := by
  by_cases hrev : (reviseStep d cell nb).2 = true
  · obtain ⟨h1, hex, h3⟩ := reviseStep_true hrev
    have hcellne : getDom d cell.1 cell.2 ≠ [] := by
      intro he; rw [he] at h1; simp at h1
    obtain ⟨hc1, hc2⟩ := getDom_bounds hshape hcellne
    obtain ⟨w, hw⟩ := List.length_eq_one.1 h1
    have hcellmem : cell ∈ allCells := mem_allCells.2 ⟨hc1, hc2⟩
    have hscell : get2 s cell.1 cell.2 = w := by
      have hmem := hconf _ hcellmem
      rw [hw] at hmem
      simpa using hmem
    have hnbspec := neighbors_spec cell.1 (List.mem_range.2 hc1) cell.2
      (List.mem_range.2 hc2) nb hnb
    have hnbmem : nb ∈ allCells := mem_allCells.2 ⟨hnbspec.1, hnbspec.2.1⟩
    have hnbne : nb ≠ cell := neighbors_ne_cell cell nb hnb
    have hsnb : get2 s nb.1 nb.2 ≠ w := by
      intro he
      have heq : get2 s cell.1 cell.2 = get2 s nb.1 nb.2 := by rw [hscell, he]
      exact (gridOKb_iff.1 hsok _ hcellmem _ hnbmem) (fun hx => hnbne hx.symm)
        hnbspec.2.2 (hspos _ hcellmem) heq
    rw [h3]
    refine ⟨domShape_setDom hshape _ _ _, ?_, ?_⟩
    · intro p hp
      by_cases hpe : p = nb
      · subst hpe
        rw [getDom_setDom_self hshape hnbspec.1 hnbspec.2.1]
        rw [List.mem_filter]
        refine ⟨hconf _ hnbmem, ?_⟩
        show (!(getDom d cell.1 cell.2).contains (get2 s p.1 p.2)) = true
        rw [hw]
        simp [hsnb]
      · rw [getDom_setDom_ne (fun he => hpe he.symm)]
        exact hconf _ hp
    · intro p hp v hv
      by_cases hpe : p = nb
      · subst hpe
        rw [getDom_setDom_self hshape hnbspec.1 hnbspec.2.1] at hv
        exact (List.mem_filter.1 hv).1
      · rw [getDom_setDom_ne (fun he => hpe he.symm)] at hv
        exact hv
  · rw [reviseStep_false (by simpa using hrev)]
    exact ⟨hshape, hconf, domLe_refl d⟩

theorem processNeighbors_inv {s : Grid} (hsok : gridOKb s = true)
    (hspos : ∀ p ∈ allCells, get2 s p.1 p.2 ≠ 0) (cell : Nat × Nat) :
    ∀ (nbs : List (Nat × Nat)) (d : DomGrid) (q : List (Nat × Nat)) (d' : DomGrid)
      (q' : List (Nat × Nat)),
      (∀ nb ∈ nbs, nb ∈ get_neighbors cell.1 cell.2) →
      domShape d → conforms s d →
      processNeighbors cell nbs d q = some (d', q') →
      domShape d' ∧ conforms s d' ∧ domLe d' d := by
  intro nbs
  induction nbs with
  | nil =>
    intro d q d' q' _ hsh hcf h
    simp only [processNeighbors, Option.some.injEq, Prod.mk.injEq] at h
    obtain ⟨rfl, rfl⟩ := h
    exact ⟨hsh, hcf, domLe_refl d⟩
  | cons nb rest ih =>
    intro d q d' q' hmem hsh hcf h
    unfold processNeighbors at h
    by_cases hrev : (reviseStep d cell nb).2 = true
    · rw [if_pos hrev] at h
      obtain ⟨hsh1, hcf1, hle1⟩ := reviseStep_inv hsok hspos hsh hcf (hmem nb (by simp))
      by_cases hz : (getDom (reviseStep d cell nb).1 cell.1 cell.2).length = 0
      · rw [if_pos hz] at h; exact absurd h (by simp)
      · rw [if_neg hz] at h
        obtain ⟨hsh2, hcf2, hle2⟩ := ih _ _ _ _ (fun x hx => hmem x (by simp [hx])) hsh1 hcf1 h
        exact ⟨hsh2, hcf2, domLe_trans hle2 hle1⟩
    · rw [if_neg hrev] at h
      exact ih _ _ _ _ (fun x hx => hmem x (by simp [hx])) hsh hcf h

/-- The revision loop keeps the solution inside every domain, keeps the
table 9×9, and only ever shrinks domains. -/
theorem ac3Loop_inv {s : Grid} (hsok : gridOKb s = true)
    (hspos : ∀ p ∈ allCells, get2 s p.1 p.2 ≠ 0) :
    ∀ (fuel : Nat) (d : DomGrid) (q : List (Nat × Nat)) (d' : DomGrid),
      domShape d → conforms s d → ac3Loop fuel d q = .ok d' →
      domShape d' ∧ conforms s d' ∧ domLe d' d := by
  intro fuel
  induction fuel with
  | zero =>
    intro d q d' hsh hcf h
    cases q with
    | nil =>
      obtain rfl : d = d' := by simpa [ac3Loop] using h
      exact ⟨hsh, hcf, domLe_refl d⟩
    | cons a t => simp [ac3Loop] at h
  | succ n ih =>
    intro d q d' hsh hcf h
    cases q with
    | nil =>
      obtain rfl : d = d' := by simpa [ac3Loop] using h
      exact ⟨hsh, hcf, domLe_refl d⟩
    | cons cell rest =>
      obtain ⟨d1, q1, hp⟩ := processNeighbors_some cell _ d rest (neighbors_ne_cell cell)
      unfold ac3Loop at h
      rw [hp] at h
      obtain ⟨hsh1, hcf1, hle1⟩ := processNeighbors_inv hsok hspos cell _ d rest d1 q1
        (fun nb hnb => hnb) hsh hcf hp
      obtain ⟨hsh2, hcf2, hle2⟩ := ih d1 q1 d' hsh1 hcf1 h
      exact ⟨hsh2, hcf2, domLe_trans hle2 hle1⟩

/-! ### The application step and assembled exactness results -/

theorem check_win_iff {g : Grid} (hw : wfb g = true) :
    check_win g = true ↔ ∀ p ∈ allCells, get2 g p.1 p.2 ≠ 0 := by
  rcases wfb_iff.1 hw with ⟨hl, hrows⟩
  unfold check_win
  simp only [List.all_eq_true, bne_iff_ne, ne_eq]
  constructor
  · intro h p hp
    have hp1 := (mem_allCells.1 hp).1
    have hp2 := (mem_allCells.1 hp).2
    have hrmem : g.getD p.1 [] ∈ g := getD_mem (by omega) []
    exact h _ hrmem _ (get2_mem_row hw hp1 hp2)
  · intro h row hrow v hv
    obtain ⟨i, hi, rfl⟩ := List.mem_iff_getElem.1 hrow
    obtain ⟨j, hj, rfl⟩ := List.mem_iff_getElem.1 hv
    have hi9 : i < 9 := by omega
    have hj9 : j < 9 := by have := hrows _ (List.getElem_mem hi); omega
    have he : get2 g i j = g[i][j] := by
      show (g.getD i []).getD j 0 = _
      rw [List.getD_eq_getElem g [] hi]
      exact List.getD_eq_getElem g[i] 0 hj
    intro hz
    exact h (i, j) (mem_allCells.2 ⟨hi9, hj9⟩) (by rw [he, hz])

theorem grid_ext {a b : Grid} (ha : wfb a = true) (hb : wfb b = true)
    (h : ∀ p ∈ allCells, get2 a p.1 p.2 = get2 b p.1 p.2) : a = b := by
  rcases wfb_iff.1 ha with ⟨hal, harows⟩
  rcases wfb_iff.1 hb with ⟨hbl, hbrows⟩
  apply List.ext_getElem (by omega)
  intro i hi1 hi2
  have hrowa : a[i].length = 9 := harows _ (List.getElem_mem hi1)
  have hrowb : b[i].length = 9 := hbrows _ (List.getElem_mem hi2)
  apply List.ext_getElem (by omega)
  intro j hj1 hj2
  have hi9 : i < 9 := by omega
  have hj9 : j < 9 := by omega
  have hv := h (i, j) (mem_allCells.2 ⟨hi9, hj9⟩)
  have ea : get2 a i j = a[i][j] := by
    show (a.getD i []).getD j 0 = _
    rw [List.getD_eq_getElem a [] hi1]
    exact List.getD_eq_getElem a[i] 0 hj1
  have eb : get2 b i j = b[i][j] := by
    show (b.getD i []).getD j 0 = _
    rw [List.getD_eq_getElem b [] hi2]
    exact List.getD_eq_getElem b[i] 0 hj2
  rw [← ea, ← eb]
  exact hv

theorem gridOK_of_solution {s g : Grid} (hs : solCheck s g = true) : gridOKb g = true := by
  rcases solCheck_iff.1 hs with ⟨hws, hbnd, hok, hext⟩
  rw [gridOKb_iff]
  intro p hp q hq hpq hsu hnz heq
  have hqnz : get2 g q.1 q.2 ≠ 0 := by rw [← heq]; exact hnz
  have hs1 := hext p hp hnz
  have hs2 := hext q hq hqnz
  exact (gridOKb_iff.1 hok p hp q hq) hpq hsu (by rw [hs1]; exact hnz)
    (by rw [hs1, hs2, heq])

theorem boundedB_of_cells {g : Grid} (hw : wfb g = true)
    (h : ∀ p ∈ allCells, get2 g p.1 p.2 ≤ 9) : boundedB g = true := by
  rcases wfb_iff.1 hw with ⟨hl, hrows⟩
  simp only [boundedB, List.all_eq_true, decide_eq_true_eq]
  intro row hrow v hv
  obtain ⟨i, hi, rfl⟩ := List.mem_iff_getElem.1 hrow
  obtain ⟨j, hj, rfl⟩ := List.mem_iff_getElem.1 hv
  have hi9 : i < 9 := by omega
  have hj9 : j < 9 := by have := hrows _ (List.getElem_mem hi); omega
  have he : get2 g i j = g[i][j] := by
    show (g.getD i []).getD j 0 = _
    rw [List.getD_eq_getElem g [] hi]
    exact List.getD_eq_getElem g[i] 0 hj
  rw [← he]
  exact h (i, j) (mem_allCells.2 ⟨hi9, hj9⟩)

theorem get2_le_of_boundedB {g : Grid} (hb : boundedB g = true) (i j : Nat) :
    get2 g i j ≤ 9 := by
  simp only [boundedB, List.all_eq_true, decide_eq_true_eq] at hb
  rcases Nat.lt_or_ge i g.length with hi | hi
  · rcases Nat.lt_or_ge j (g.getD i []).length with hj | hj
    · exact hb _ (getD_mem hi []) _ (getD_mem hj 0)
    · show (g.getD i []).getD j 0 ≤ 9
      rw [List.getD_eq_default _ _ (by omega)]
      omega
  · show (g.getD i []).getD j 0 ≤ 9
    rw [List.getD_eq_default g [] (by omega)]
    simp

/-- Value description of the application fold over any duplicate-free list
of board cells. -/
theorem applyFold_spec {d : DomGrid} :
    ∀ (L : List (Nat × Nat)) (g : Grid), L.Nodup → (∀ x ∈ L, x.1 < 9 ∧ x.2 < 9) →
      wfb g = true →
      wfb (L.foldl (applyStep d) g) = true ∧
      ∀ p : Nat × Nat, p.1 < 9 → p.2 < 9 →
        get2 (L.foldl (applyStep d) g) p.1 p.2 =
          if p ∈ L ∧ (getDom d p.1 p.2).length = 1 then (getDom d p.1 p.2).headD 0
          else get2 g p.1 p.2 := by
  intro L
  induction L with
  | nil =>
    intro g _ _ hw
    exact ⟨hw, fun p _ _ => by simp⟩
  | cons q rest ih =>
    intro g hnd hbd hw
    have hq1 : q.1 < 9 := (hbd q (by simp)).1
    have hq2 : q.2 < 9 := (hbd q (by simp)).2
    have hw1 : wfb (applyStep d g q) = true := by
      unfold applyStep
      split
      · exact wfb_set2 hw _ _ _
      · exact hw
    obtain ⟨hwf, hval⟩ := ih (applyStep d g q) (List.nodup_cons.1 hnd).2
      (fun x hx => hbd x (by simp [hx])) hw1
    refine ⟨by rw [List.foldl_cons]; exact hwf, ?_⟩
    intro p hp1 hp2
    rw [List.foldl_cons, hval p hp1 hp2]
    by_cases hmem : p ∈ rest ∧ (getDom d p.1 p.2).length = 1
    · rw [if_pos hmem, if_pos ⟨by simp [hmem.1], hmem.2⟩]
    · rw [if_neg hmem]
      by_cases hpq : p = q
      · subst hpq
        by_cases hsing : (getDom d p.1 p.2).length = 1
        · rw [if_pos ⟨by simp, hsing⟩]
          unfold applyStep
          rw [if_pos hsing]
          exact get2_set2_self hw hp1 hp2 _
        · rw [if_neg fun hc => hsing hc.2]
          unfold applyStep
          rw [if_neg hsing]
      · have hnotin : ¬(p ∈ q :: rest ∧ (getDom d p.1 p.2).length = 1) := by
          rintro ⟨hin, hsing⟩
          rcases List.mem_cons.1 hin with rfl | hin'
          · exact hpq rfl
          · exact hmem ⟨hin', hsing⟩
        rw [if_neg hnotin]
        unfold applyStep
        split
        · exact get2_set2_ne hpq _
        · rfl

theorem applySingles_spec {g : Grid} (d : DomGrid) (hw : wfb g = true) :
    wfb (applySingles g d) = true ∧
    ∀ p : Nat × Nat, p.1 < 9 → p.2 < 9 →
      get2 (applySingles g d) p.1 p.2 =
        if (getDom d p.1 p.2).length = 1 then (getDom d p.1 p.2).headD 0
        else get2 g p.1 p.2 := by
  obtain ⟨hwf, hval⟩ := applyFold_spec allCells g allCells_nodup
    (fun x hx => mem_allCells.1 hx) hw
  refine ⟨hwf, ?_⟩
  intro p hp1 hp2
  show get2 (allCells.foldl (applyStep d) g) p.1 p.2 = _
  rw [hval p hp1 hp2]
  by_cases hsing : (getDom d p.1 p.2).length = 1
  · rw [if_pos ⟨mem_allCells.2 ⟨hp1, hp2⟩, hsing⟩, if_pos hsing]
  · rw [if_neg fun hc => hsing hc.2, if_neg hsing]

/-- On a puzzle with a unique solution, backtracking succeeds and produces
exactly that solution. -/
theorem backtracking_exact {g s : Grid} (hw : wfb g = true)
    (hs : solCheck s g = true) (huniq : ∀ t, solCheck t g = true → t = s) :
    backtracking_solve g = (true, s) := by
  have hb : boundedB g = true := by
    apply boundedB_of_cells hw
    intro p hp
    rcases solCheck_iff.1 hs with ⟨hws, hbnd, hok, hext⟩
    by_cases hz : get2 g p.1 p.2 = 0
    · omega
    · rw [← hext p hp hz]
      exact (hbnd p hp).2
  have hok : gridOKb g = true := gridOK_of_solution hs
  have ht : (backtrack 82 g).1 = true :=
    backtrack_complete 82 g s hw hs (by have := emptyCount_le g; omega)
  obtain ⟨hwr, hbr, hokr⟩ := backtrack_sound 82 g hw hb hok ht
  have hfull := (backtrack_core 82 g).2.2 ht
  have hagr := (backtrack_core 82 g).2.1
  have hsr : solCheck (backtrack 82 g).2 g = true := by
    rw [solCheck_iff]
    refine ⟨hwr, ?_, hokr, fun p hp hnz => hagr p hp hnz⟩
    intro p hp
    have hnz := find_empty_none.1 hfull p hp
    exact ⟨by omega, get2_le_of_boundedB hbr p.1 p.2⟩
  have h2 : (backtrack 82 g).2 = s := huniq _ hsr
  show backtrack 82 g = (true, s)
  rw [← h2, ← ht]

theorem ac3_solve_ok {g : Grid} {d' : DomGrid}
    (hres : ac3Loop (ac3Fuel g) (initDomains g) (initQueue g) = .ok d') :
    ac3_solve g = (true, if check_win (applySingles g d')
      then applySingles g d' else (backtracking_solve (applySingles g d')).2) := by
  unfold ac3_solve
  rw [hres]

/-- On a puzzle with a unique solution, `ac3_solve` (propagation, singleton
application, and the backtracking fallback) also produces exactly that
solution, with result flag `True`. -/
theorem ac3_exact {g s : Grid} (hw : wfb g = true) (hs : solCheck s g = true)
    (huniq : ∀ t, solCheck t g = true → t = s) : ac3_solve g = (true, s) := by
  rcases solCheck_iff.1 hs with ⟨hws, hbnd, hok, hext⟩
  have hspos : ∀ p ∈ allCells, get2 s p.1 p.2 ≠ 0 := fun p hp => by
    have := (hbnd p hp).1; omega
  cases hres : ac3Loop (ac3Fuel g) (initDomains g) (initQueue g) with
  | fail => exact (ac3Loop_ne_fail _ _ _ hres).elim
  | fuelOut =>
    have hout := ac3Loop_no_fuelOut (ac3Fuel g) (initDomains g) (initQueue g)
      (Nat.le_of_eq rfl)
    rw [hres] at hout
    simp [LoopRes.isOut] at hout
  | ok d' =>
    obtain ⟨hsh, hcf, hle⟩ := ac3Loop_inv hok hspos (ac3Fuel g) _ _ d'
      (domShape_init g) (conforms_init hs) hres
    obtain ⟨hwf1, hval1⟩ := applySingles_spec d' hw
    have hval : ∀ p ∈ allCells,
        (get2 (applySingles g d') p.1 p.2 = get2 s p.1 p.2 ∧
          (getDom d' p.1 p.2).length = 1) ∨
        (get2 (applySingles g d') p.1 p.2 = get2 g p.1 p.2 ∧
          (getDom d' p.1 p.2).length ≠ 1) := by
      intro p hp
      have h1 := hval1 p (mem_allCells.1 hp).1 (mem_allCells.1 hp).2
      by_cases hsing : (getDom d' p.1 p.2).length = 1
      · left
        refine ⟨?_, hsing⟩
        rw [h1, if_pos hsing]
        obtain ⟨w, hwq⟩ := List.length_eq_one.1 hsing
        have hmem := hcf p hp
        rw [hwq] at hmem ⊢
        have hsw : get2 s p.1 p.2 = w := by simpa using hmem
        rw [hsw]
        rfl
      · right
        refine ⟨?_, hsing⟩
        rw [h1, if_neg hsing]
    have hg1g : ∀ p ∈ allCells, get2 g p.1 p.2 ≠ 0 →
        get2 (applySingles g d') p.1 p.2 = get2 g p.1 p.2 := by
      intro p hp hnz
      rcases hval p hp with ⟨he, _⟩ | ⟨he, _⟩
      · rw [he, hext p hp hnz]
      · exact he
    have hsol1 : solCheck s (applySingles g d') = true := by
      rw [solCheck_iff]
      refine ⟨hws, hbnd, hok, ?_⟩
      intro p hp hnz
      rcases hval p hp with ⟨he, _⟩ | ⟨he, _⟩
      · rw [he]
      · rw [he] at hnz ⊢
        exact hext p hp hnz
    have huniq1 : ∀ t, solCheck t (applySingles g d') = true → t = s := by
      intro t htt
      apply huniq
      rcases solCheck_iff.1 htt with ⟨hwt, hbt, hokt, hextt⟩
      rw [solCheck_iff]
      refine ⟨hwt, hbt, hokt, ?_⟩
      intro p hp hnz
      have hg1nz : get2 (applySingles g d') p.1 p.2 ≠ 0 := by
        rw [hg1g p hp hnz]; exact hnz
      rw [hextt p hp hg1nz, hg1g p hp hnz]
    rw [ac3_solve_ok hres]
    by_cases hwin : check_win (applySingles g d') = true
    · rw [if_pos hwin]
      have heq : applySingles g d' = s := by
        apply grid_ext hwf1 hws
        intro p hp
        have hnz := (check_win_iff hwf1).1 hwin p hp
        rcases hval p hp with ⟨he, _⟩ | ⟨he, _⟩
        · exact he
        · rw [he] at hnz ⊢
          rw [hext p hp hnz]
      rw [heq]
    · rw [if_neg hwin]
      rw [backtracking_exact hwf1 hsol1 huniq1]

/-! ### Game state: puzzles store, working grid, snapshot, aliasing -/

/-- The dict `self.puzzles = {'Easy': [], 'Medium': [], 'Hard': []}`; no
other key is ever inserted. -/
structure PuzzleStore where
  easy : List Grid
  medium : List Grid
  hard : List Grid
deriving DecidableEq

/-- `difficulty in self.puzzles` plus `self.puzzles[difficulty]`. -/
def getTier (p : PuzzleStore) (difficulty : String) : Option (List Grid) :=
  if difficulty = "Easy" then some p.easy
  else if difficulty = "Medium" then some p.medium
  else if difficulty = "Hard" then some p.hard
  else none

/-- Replace the i-th entry of a tier (in-place list mutation in the
source). -/
def setTier (p : PuzzleStore) (difficulty : String) (i : Nat) (g : Grid) : PuzzleStore :=
  if difficulty = "Easy" then { p with easy := p.easy.set i g }
  else if difficulty = "Medium" then { p with medium := p.medium.set i g }
  else if difficulty = "Hard" then { p with hard := p.hard.set i g }
  else p

/-- The stored puzzle `self.puzzles[difficulty][i]`, if present. -/
def getEntry (p : PuzzleStore) (difficulty : String) (i : Nat) : Option Grid :=
  (getTier p difficulty).bind fun lst => lst[i]?

/-- State of a `SudokuGame`. CPython reference semantics are made explicit:
`load_puzzle` runs `self.puzzle = self.puzzles[difficulty][index]` without
copying, so afterwards the working grid and the stored entry are the same
list-of-lists object; `puzzleAlias` records which stored entry (if any) the
working grid currently aliases, and the in-place cell assignments of the
solvers write through it. `self.original_puzzle` is built with
`[row[:] for row in self.puzzle]` — fresh row lists — hence a plain value
that later mutations of the working grid do not touch. -/
structure GameState where
  puzzles : PuzzleStore
  puzzle : Grid
  original : Grid
  puzzleAlias : Option (String × Nat)
deriving DecidableEq

/-- `load_puzzle(difficulty, index)` from the source. The guard is
`difficulty in self.puzzles and index < len(self.puzzles[difficulty])`; a
negative `index` passes the guard, and Python list indexing then counts
from the end of the list, raising `IndexError` (modelled as `none`) when
`index < -len`. -/
def load_puzzle (st : GameState) (difficulty : String) (index : Int) :
    Option GameState :=
  match getTier st.puzzles difficulty with
  | none => some st
  | some lst =>
    if index < (lst.length : Int) then
      if 0 ≤ index then
        some { st with puzzle := lst.getD index.toNat [],
                       original := lst.getD index.toNat [],
                       puzzleAlias := some (difficulty, index.toNat) }
      else if -(lst.length : Int) ≤ index then
        some { st with puzzle := lst.getD (lst.length - (-index).toNat) [],
                       original := lst.getD (lst.length - (-index).toNat) [],
                       puzzleAlias := some (difficulty, lst.length - (-index).toNat) }
      else none
    else some st

/-- In-place mutation of the working grid is visible through the alias in
the stored entry (the row lists are shared objects in the source). -/
def writeThrough (st : GameState) (g' : Grid) : GameState :=
  { st with
    puzzle := g'
    puzzles := match st.puzzleAlias with
      | none => st.puzzles
      | some (d, i) => setTier st.puzzles d i g' }

/-- `backtracking_solve` invoked on the game state. -/
def solveGame (st : GameState) : Bool × GameState :=
  ((backtracking_solve st.puzzle).1,
   writeThrough st (backtracking_solve st.puzzle).2)

theorem getEntry_setTier {p : PuzzleStore} {d : String} {lst : List Grid}
    (hd : getTier p d = some lst) {i : Nat} (hi : i < lst.length) (g : Grid) :
    getEntry (setTier p d i g) d i = some g := by
  unfold getTier at hd
  by_cases h1 : d = "Easy"
  · rw [if_pos h1] at hd
    obtain rfl := Option.some.inj hd
    unfold getEntry setTier getTier
    rw [if_pos h1, if_pos h1]
    exact List.getElem?_set_self hi
  · rw [if_neg h1] at hd
    by_cases h2 : d = "Medium"
    · rw [if_pos h2] at hd
      obtain rfl := Option.some.inj hd
      unfold getEntry setTier getTier
      rw [if_neg h1, if_pos h2, if_neg h1, if_pos h2]
      exact List.getElem?_set_self hi
    · rw [if_neg h2] at hd
      by_cases h3 : d = "Hard"
      · rw [if_pos h3] at hd
        obtain rfl := Option.some.inj hd
        unfold getEntry setTier getTier
        rw [if_neg h1, if_neg h2, if_pos h3, if_neg h1, if_neg h2, if_pos h3]
        exact List.getElem?_set_self hi
      · rw [if_neg h3] at hd
        exact absurd hd (by simp)

theorem load_puzzle_in_range {st : GameState} {difficulty : String} {index : Int}
    {lst : List Grid} (hd : getTier st.puzzles difficulty = some lst)
    (h0 : 0 ≤ index) (hi : index < (lst.length : Int)) :
    load_puzzle st difficulty index = some
      { st with puzzle := lst.getD index.toNat [],
                original := lst.getD index.toNat [],
                puzzleAlias := some (difficulty, index.toNat) } := by
  simp only [load_puzzle, hd, if_pos hi, if_pos h0]

/-! ### Concrete boards and game states used by the claim theorems -/

/-- A fully solved, valid board. -/
def gS : Grid :=
  [[1, 2, 3, 4, 5, 6, 7, 8, 9],
   [4, 5, 6, 7, 8, 9, 1, 2, 3],
   [7, 8, 9, 1, 2, 3, 4, 5, 6],
   [2, 3, 1, 5, 6, 4, 8, 9, 7],
   [5, 6, 4, 8, 9, 7, 2, 3, 1],
   [8, 9, 7, 2, 3, 1, 5, 6, 4],
   [3, 1, 2, 6, 4, 5, 9, 7, 8],
   [6, 4, 5, 9, 7, 8, 3, 1, 2],
   [9, 7, 8, 3, 1, 2, 6, 4, 5]]

/-- `gS` with cell (0,0) blanked: a puzzle one placement from solved. -/
def gW2 : Grid :=
  [[0, 2, 3, 4, 5, 6, 7, 8, 9],
   [4, 5, 6, 7, 8, 9, 1, 2, 3],
   [7, 8, 9, 1, 2, 3, 4, 5, 6],
   [2, 3, 1, 5, 6, 4, 8, 9, 7],
   [5, 6, 4, 8, 9, 7, 2, 3, 1],
   [8, 9, 7, 2, 3, 1, 5, 6, 4],
   [3, 1, 2, 6, 4, 5, 9, 7, 8],
   [6, 4, 5, 9, 7, 8, 3, 1, 2],
   [9, 7, 8, 3, 1, 2, 6, 4, 5]]

/-- An unsolvable board on which backtracking fails at the first empty cell:
(0,0) admits no value, since 2–9 occur in row 0 and 1 occurs in column 0. -/
def gW3 : Grid :=
  [[0, 2, 3, 4, 5, 6, 7, 8, 9],
   [1, 0, 0, 0, 0, 0, 0, 0, 0],
   [0, 0, 0, 0, 0, 0, 0, 0, 0],
   [0, 0, 0, 0, 0, 0, 0, 0, 0],
   [0, 0, 0, 0, 0, 0, 0, 0, 0],
   [0, 0, 0, 0, 0, 0, 0, 0, 0],
   [0, 0, 0, 0, 0, 0, 0, 0, 0],
   [0, 0, 0, 0, 0, 0, 0, 0, 0],
   [0, 0, 0, 0, 0, 0, 0, 0, 0]]

/-- `gS` with cell (2,2) blanked. -/
def gW4 : Grid :=
  [[1, 2, 3, 4, 5, 6, 7, 8, 9],
   [4, 5, 6, 7, 8, 9, 1, 2, 3],
   [7, 8, 0, 1, 2, 3, 4, 5, 6],
   [2, 3, 1, 5, 6, 4, 8, 9, 7],
   [5, 6, 4, 8, 9, 7, 2, 3, 1],
   [8, 9, 7, 2, 3, 1, 5, 6, 4],
   [3, 1, 2, 6, 4, 5, 9, 7, 8],
   [6, 4, 5, 9, 7, 8, 3, 1, 2],
   [9, 7, 8, 3, 1, 2, 6, 4, 5]]

/-- `gS` with cell (1,1) blanked: a puzzle with exactly one solution. -/
def gW5 : Grid :=
  [[1, 2, 3, 4, 5, 6, 7, 8, 9],
   [4, 0, 6, 7, 8, 9, 1, 2, 3],
   [7, 8, 9, 1, 2, 3, 4, 5, 6],
   [2, 3, 1, 5, 6, 4, 8, 9, 7],
   [5, 6, 4, 8, 9, 7, 2, 3, 1],
   [8, 9, 7, 2, 3, 1, 5, 6, 4],
   [3, 1, 2, 6, 4, 5, 9, 7, 8],
   [6, 4, 5, 9, 7, 8, 3, 1, 2],
   [9, 7, 8, 3, 1, 2, 6, 4, 5]]

/-- `gS` with cell (8,8) blanked. -/
def gW10 : Grid :=
  [[1, 2, 3, 4, 5, 6, 7, 8, 9],
   [4, 5, 6, 7, 8, 9, 1, 2, 3],
   [7, 8, 9, 1, 2, 3, 4, 5, 6],
   [2, 3, 1, 5, 6, 4, 8, 9, 7],
   [5, 6, 4, 8, 9, 7, 2, 3, 1],
   [8, 9, 7, 2, 3, 1, 5, 6, 4],
   [3, 1, 2, 6, 4, 5, 9, 7, 8],
   [6, 4, 5, 9, 7, 8, 3, 1, 2],
   [9, 7, 8, 3, 1, 2, 6, 4, 0]]

/-- Board on which AC-3 propagation empties a domain: cells (0,7) and (0,8)
both start with the singleton domain {8} (row 0 holds 1–7 and the block
holds 9), so revising from (0,7) removes 8 from the domain of (0,8),
leaving it empty. -/
def gC1 : Grid :=
  [[1, 2, 3, 4, 5, 6, 7, 0, 0],
   [0, 0, 0, 0, 0, 0, 0, 0, 0],
   [0, 0, 0, 0, 0, 0, 0, 0, 9],
   [0, 0, 0, 0, 0, 0, 0, 0, 0],
   [0, 0, 0, 0, 0, 0, 0, 0, 0],
   [0, 0, 0, 0, 0, 0, 0, 0, 0],
   [0, 0, 0, 0, 0, 0, 0, 0, 0],
   [0, 0, 0, 0, 0, 0, 0, 0, 0],
   [0, 0, 0, 0, 0, 0, 0, 0, 0]]

/-- The all-empty board of `SudokuGame.__init__`. -/
def emptyGrid : Grid := List.replicate 9 (List.replicate 9 0)

/-- `gS` with cell (8,8) blanked, stored as an `Easy` puzzle for the
aliasing scenario of claim C6. -/
def gU : Grid :=
  [[1, 2, 3, 4, 5, 6, 7, 8, 9],
   [4, 5, 6, 7, 8, 9, 1, 2, 3],
   [7, 8, 9, 1, 2, 3, 4, 5, 6],
   [2, 3, 1, 5, 6, 4, 8, 9, 7],
   [5, 6, 4, 8, 9, 7, 2, 3, 1],
   [8, 9, 7, 2, 3, 1, 5, 6, 4],
   [3, 1, 2, 6, 4, 5, 9, 7, 8],
   [6, 4, 5, 9, 7, 8, 3, 1, 2],
   [9, 7, 8, 3, 1, 2, 6, 4, 0]]

/-- Fresh game with a single `Easy` puzzle `gU` stored. -/
def st6 : GameState :=
  { puzzles := { easy := [gU], medium := [], hard := [] },
    puzzle := emptyGrid, original := emptyGrid, puzzleAlias := none }

/-- Fresh game with a single `Easy` puzzle `gS` stored. -/
def st7 : GameState :=
  { puzzles := { easy := [gS], medium := [], hard := [] },
    puzzle := emptyGrid, original := emptyGrid, puzzleAlias := none }

/-- `gW5` has exactly one solution, namely `gS`: all cells but (1,1) are
givens, and (1,1) is forced to 5 by its row. -/
theorem uniq_gW5 : ∀ t, solCheck t gW5 = true → t = gS := by
  intro t ht
  rcases solCheck_iff.1 ht with ⟨hwt, hbt, hokt, hextt⟩
  apply grid_ext hwt (by decide)
  intro p hp
  by_cases hpe : p = (1, 1)
  · subst hpe
    have hvals : ∀ j, j < 9 → j ≠ 1 → get2 t 1 j = get2 gW5 1 j := by
      intro j hj hne
      have hnz : ∀ j ∈ List.range 9, j ≠ 1 → get2 gW5 1 j ≠ 0 := by decide
      exact hextt (1, j) (mem_allCells.2 ⟨by omega, hj⟩)
        (hnz j (List.mem_range.2 hj) hne)
    have step : ∀ j, j < 9 → j ≠ 1 → get2 t 1 1 ≠ get2 gW5 1 j := by
      intro j hj hne
      have hd := (gridOKb_iff.1 hokt (1, 1) (by decide) (1, j)
        (mem_allCells.2 ⟨by omega, hj⟩))
        (fun he => hne ((congrArg Prod.snd he).symm))
        (.inl rfl)
        (by have h := (hbt (1, 1) (by decide)).1
            show get2 t 1 1 ≠ 0
            have h' : 1 ≤ get2 t 1 1 := h
            omega)
      have hd' : get2 t 1 1 ≠ get2 t 1 j := hd
      rw [hvals j hj hne] at hd'
      exact hd'
    have h1 : 1 ≤ get2 t 1 1 := (hbt (1, 1) (by decide)).1
    have h9 : get2 t 1 1 ≤ 9 := (hbt (1, 1) (by decide)).2
    have k0 := step 0 (by omega) (by omega)
    have k2 := step 2 (by omega) (by omega)
    have k3 := step 3 (by omega) (by omega)
    have k4 := step 4 (by omega) (by omega)
    have k5 := step 5 (by omega) (by omega)
    have k6 := step 6 (by omega) (by omega)
    have k7 := step 7 (by omega) (by omega)
    have k8 := step 8 (by omega) (by omega)
    have hG : get2 gW5 1 0 = 4 ∧ get2 gW5 1 2 = 6 ∧ get2 gW5 1 3 = 7 ∧
        get2 gW5 1 4 = 8 ∧ get2 gW5 1 5 = 9 ∧ get2 gW5 1 6 = 1 ∧
        get2 gW5 1 7 = 2 ∧ get2 gW5 1 8 = 3 ∧ get2 gS 1 1 = 5 := by decide
    obtain ⟨e0, e2, e3, e4, e5, e6, e7, e8, eS⟩ := hG
    rw [e0] at k0
    rw [e2] at k2
    rw [e3] at k3
    rw [e4] at k4
    rw [e5] at k5
    rw [e6] at k6
    rw [e7] at k7
    rw [e8] at k8
    show get2 t 1 1 = get2 gS 1 1
    rw [eS]
    omega
  · have hall : ∀ q ∈ allCells, q ≠ (1, 1) → get2 gW5 q.1 q.2 ≠ 0 := by decide
    have hgs : ∀ q ∈ allCells, get2 gW5 q.1 q.2 ≠ 0 →
        get2 gW5 q.1 q.2 = get2 gS q.1 q.2 := by decide
    have hnzp := hall p hp hpe
    rw [hextt p hp hnzp, hgs p hp hnzp]

/-! ### Claim theorems -/

/-- C1: the spec claims that when a revision removes a value and the
neighbor's domain becomes empty, `ac3_solve` returns failure immediately.
The code instead tests the dequeued cell's domain (`domains[(row, col)]`),
which is a singleton whenever a revision just occurred, so the failure
branch never runs. On `gC1` the domain of (0,8) — initially the nonempty
`[8]` computed by `get_domain` — is emptied during the revision loop, yet
`ac3_solve` returns `True` (and runs the backtracking fallback). -/
theorem claim_C1 :
    get_domain gC1 0 8 = [8] ∧ getDom (loopDoms gC1) 0 8 = [] ∧
    (ac3_solve gC1).1 = true := by decide

/-- C2: for every 9×9 board (entries 0–9) whose non-zero givens contain no
duplicate within any row, column, or 3×3 block, if `backtracking_solve`
returns `True` then the final grid is fully filled with values 1–9 and no
row, column, or block contains a repeated value. -/
theorem claim_C2 (g g' : Grid) (hw : wfb g = true) (hbd : boundedB g = true)
    (hok : gridOKb g = true) (hbt : backtracking_solve g = (true, g')) :
    check_win g' = true ∧
    (∀ p ∈ allCells, 1 ≤ get2 g' p.1 p.2 ∧ get2 g' p.1 p.2 ≤ 9) ∧
    gridOKb g' = true := by
  have h1 : (backtrack 82 g).1 = true := by
    show (backtracking_solve g).1 = true
    rw [hbt]
  have h2 : (backtrack 82 g).2 = g' := by
    show (backtracking_solve g).2 = g'
    rw [hbt]
  obtain ⟨hwr, hbr, hokr⟩ := backtrack_sound 82 g hw hbd hok h1
  have hfull := (backtrack_core 82 g).2.2 h1
  rw [h2] at hwr hbr hokr hfull
  refine ⟨(check_win_iff hwr).2 (find_empty_none.1 hfull), ?_, hokr⟩
  intro p hp
  have hnz := find_empty_none.1 hfull p hp
  exact ⟨by omega, get2_le_of_boundedB hbr p.1 p.2⟩

/-- Witness for C2 at the concrete puzzle `gW2`, solved to `gS`. -/
theorem claim_C2_witness :
    check_win gS = true ∧
    (∀ p ∈ allCells, 1 ≤ get2 gS p.1 p.2 ∧ get2 gS p.1 p.2 ≤ 9) ∧
    gridOKb gS = true :=
  claim_C2 gW2 gS (by decide) (by decide) (by decide) (by decide)

/-- C3: for every grid, if `backtracking_solve` returns `False` the grid
after the call equals the grid before it — every cell tentatively set
during the search has been reset to 0. -/
theorem claim_C3 (g : Grid) (hf : (backtracking_solve g).1 = false) :
    (backtracking_solve g).2 = g :=
  (backtrack_core 82 g).1 hf

/-- Witness for C3 at the unsolvable board `gW3`. -/
theorem claim_C3_witness : (backtracking_solve gW3).2 = gW3 :=
  claim_C3 gW3 (by decide)

/-- C4: `ac3_solve` returns `True` whenever the revision queue drains
without the infeasibility signal, regardless of the final grid; the result
of the backtracking fallback is discarded and does not affect the returned
flag. -/
theorem claim_C4 (g : Grid) (h : loopOf g ≠ LoopRes.fail) :
    (ac3_solve g).1 = true := by
  cases hres : ac3Loop (ac3Fuel g) (initDomains g) (initQueue g) with
  | fail => exact absurd (show loopOf g = .fail from hres) h
  | fuelOut =>
    have hout := ac3Loop_no_fuelOut (ac3Fuel g) (initDomains g) (initQueue g)
      (Nat.le_of_eq rfl)
    rw [hres] at hout
    simp [LoopRes.isOut] at hout
  | ok d' => rw [ac3_solve_ok hres]

/-- Witness for C4 at the concrete puzzle `gW4`. -/
theorem claim_C4_witness : (ac3_solve gW4).1 = true :=
  claim_C4 gW4 (by decide)

/-- C5: for every 9×9 puzzle with exactly one solution, `backtracking_solve`
and `ac3_solve` both succeed and both produce exactly that solution, hence
identical final grids. -/
theorem claim_C5 (g s : Grid) (hw : wfb g = true) (hs : solCheck s g = true)
    (huniq : ∀ t, solCheck t g = true → t = s) :
    backtracking_solve g = (true, s) ∧ ac3_solve g = (true, s) :=
  ⟨backtracking_exact hw hs huniq, ac3_exact hw hs huniq⟩

/-- Witness for C5 at the uniquely solvable puzzle `gW5`. -/
theorem claim_C5_witness :
    backtracking_solve gW5 = (true, gS) ∧ ac3_solve gW5 = (true, gS) :=
  claim_C5 gW5 gS (by decide) (by decide) uniq_gW5

/-- C6 counterexample: the claim says the stored entry for the loaded
difficulty and index still equals its load-time value after the working
grid is mutated. But `load_puzzle` aliases the stored entry instead of
copying it: after loading `gU` (whose cell (8,8) is 0) and running
`backtracking_solve`, the stored `Easy` entry's cell (8,8) reads 5 — the
solver's value, not the load-time 0. -/
theorem claim_C6_counterexample :
    get2 gU 8 8 = 0 ∧
    (load_puzzle st6 "Easy" 0).map
      (fun s1 => (getEntry (solveGame s1).2.puzzles "Easy" 0).map fun e => get2 e 8 8)
      = some (some 5) := by decide

/-- C6 (amended): `load_puzzle` installs the stored list itself, not a
copy — the working grid aliases the stored entry (only `original_puzzle` is
a copy). After a successful `load_puzzle` of an in-range non-negative index
and a subsequent `backtracking_solve`, the stored entry equals the solver's
final working grid, while `original_puzzle` keeps the load-time value. -/
theorem claim_C6_amended (st : GameState) (difficulty : String) (index : Int)
    (lst : List Grid) (hd : getTier st.puzzles difficulty = some lst)
    (h0 : 0 ≤ index) (hi : index < (lst.length : Int)) :
    ∃ st1, load_puzzle st difficulty index = some st1 ∧
      st1.original = st1.puzzle ∧
      getEntry (solveGame st1).2.puzzles difficulty index.toNat =
        some ((solveGame st1).2.puzzle) ∧
      (solveGame st1).2.original = st1.original := by
  refine ⟨_, load_puzzle_in_range hd h0 hi, rfl, ?_, rfl⟩
  show getEntry (setTier st.puzzles difficulty index.toNat _) difficulty index.toNat
    = some _
  exact getEntry_setTier hd (by omega) _

/-- Witness for the amended C6 at the concrete state `st6`. -/
theorem claim_C6_amended_witness :
    ∃ st1, load_puzzle st6 "Easy" 0 = some st1 ∧
      st1.original = st1.puzzle ∧
      getEntry (solveGame st1).2.puzzles "Easy" (0 : Int).toNat =
        some ((solveGame st1).2.puzzle) ∧
      (solveGame st1).2.original = st1.original :=
  claim_C6_amended st6 "Easy" 0 [gU] (by decide) (by decide) (by decide)

/-- C7 counterexample: the claim says `load_puzzle` is a no-op for every
out-of-range index, including negative ones. With one stored `Easy` puzzle
`gS`, loading index `-1` is not a no-op: Python's negative indexing passes
the `index < len` guard and loads the last puzzle, changing both the
working grid and the original snapshot (cell (0,0) goes from 0 to 1). -/
theorem claim_C7_counterexample :
    get2 st7.puzzle 0 0 = 0 ∧ get2 st7.original 0 0 = 0 ∧
    (load_puzzle st7 "Easy" (-1)).map (fun s => get2 s.puzzle 0 0) = some 1 ∧
    (load_puzzle st7 "Easy" (-1)).map (fun s => get2 s.original 0 0) = some 1 := by
  decide

/-- C7 (amended): `load_puzzle` is a no-op — working grid and snapshot
unchanged — for every unknown difficulty and for every index at least the
length of the stored list; a negative index instead loads from the end of
the list (or raises `IndexError` below `-len`). -/
theorem claim_C7_amended (st : GameState) (difficulty : String) (index : Int)
    (h : ∀ lst, getTier st.puzzles difficulty = some lst →
      (lst.length : Int) ≤ index) :
    load_puzzle st difficulty index = some st := by
  cases htier : getTier st.puzzles difficulty with
  | none => simp only [load_puzzle, htier]
  | some lst =>
    have hle := h lst htier
    simp only [load_puzzle, htier,
      if_neg (show ¬index < (lst.length : Int) by omega)]

/-- Witness for the amended C7 at the concrete state `st7`, index 99. -/
theorem claim_C7_amended_witness : load_puzzle st7 "Easy" 99 = some st7 :=
  claim_C7_amended st7 "Easy" 99 (by
    intro lst hl
    have h2 : some [gS] = some lst := by rw [← hl]; decide
    obtain rfl := Option.some.inj h2
    decide)

/-- C8: the AC-3 revision loop terminates on every 9×9 input grid: with
fuel equal to the total size of all initial domains plus the initial queue
length — a finite bound that strictly decreases at every iteration because
a cell is re-enqueued only after a revision strictly removed a value — the
loop never runs out of fuel. -/
theorem claim_C8 (g : Grid) :
    (ac3Loop (ac3Fuel g) (initDomains g) (initQueue g)).isOut = false :=
  ac3Loop_no_fuelOut _ _ _ (Nat.le_of_eq rfl)

/-- C9: the assertion in the AC-3 revision loop never fails: every
coordinate returned by `get_neighbors` for a cell of the 9×9 board lies
within the board and is therefore among the keys of the `domains` dict
(built over all 81 cells, `allCells`). -/
theorem claim_C9 (row col : Nat) (hr : row < 9) (hc : col < 9) :
    ∀ p ∈ get_neighbors row col, p.1 < 9 ∧ p.2 < 9 ∧ p ∈ allCells := by
  intro p hp
  have h := neighbors_spec row (List.mem_range.2 hr) col (List.mem_range.2 hc) p hp
  exact ⟨h.1, h.2.1, mem_allCells.2 ⟨h.1, h.2.1⟩⟩

/-- Witness for C9 at cell (4,5) and its neighbor (0,5). -/
theorem claim_C9_witness : (0, 5).1 < 9 ∧ (0, 5).2 < 9 ∧ (0, 5) ∈ allCells :=
  claim_C9 4 5 (by decide) (by decide) (0, 5) (by decide)

/-- C10: `backtracking_solve` never overwrites a given: every cell holding
a non-zero value before the call holds the same value after it, whether the
solve succeeds or fails, because writes only target cells returned by
`find_empty_cell`, which hold 0. -/
theorem claim_C10 (g : Grid) (i j : Nat) (hi : i < 9) (hj : j < 9)
    (hnz : get2 g i j ≠ 0) : get2 (backtracking_solve g).2 i j = get2 g i j :=
  (backtrack_core 82 g).2.1 (i, j) (mem_allCells.2 ⟨hi, hj⟩) hnz

/-- Witness for C10 at the concrete puzzle `gW10`, cell (0,0). -/
theorem claim_C10_witness : get2 (backtracking_solve gW10).2 0 0 = get2 gW10 0 0 :=
  claim_C10 gW10 0 0 (by decide) (by decide) (by decide)

end Sudoku
